import Mathlib

/-!
Verification of the Facette metrics catalog and RRD query engine
(`src/facette/backend/catalog.go`, packages `backend` and `connector`).

The Go code is shallowly embedded: Go maps become association lists,
`time.Time` becomes an integer timestamp, `float64` plot values become
rationals (`Option` with `none` standing for NaN where the code produces
NaN), fallible calls return `Option`/`Except`, and a Go panic is an
explicit outcome constructor.  External collaborators (the connector
registry constructors, `rrd` storage engine calls, the regular-expression
engine, the file walk) are parameters of the embedded functions: each
parameter stands for the value the external call would return, and the
embedded body mirrors the Go control flow around it line by line.
-/

namespace Facette

/-- Association-list lookup, modelling Go map indexing with the comma-ok idiom. -/
def alookup {β : Type} : List (String × β) → String → Option β
  | [], _ => Option.none
  | (k, v) :: rest, key => if key = k then Option.some v else alookup rest key

/-- Association-list insert-or-replace, modelling Go map assignment. -/
def ainsert {β : Type} : List (String × β) → String → β → List (String × β)
  | [], key, v => [(key, v)]
  | (k, w) :: rest, key, v =>
    if key = k then (key, v) :: rest else (k, w) :: ainsert rest key v

/-- The character for one decimal digit value. -/
def digitChar (n : Nat) : Char := Char.ofNat (48 + n)

/-- The numeric value of one decimal digit character. -/
def digitVal (c : Char) : Nat := c.toNat - 48

/-- Digit extraction with structural fuel (any fuel above the value gives
the same digits). -/
def natDigitsRevGo : Nat → Nat → List Char
  | 0, _ => []
  | fuel + 1, n =>
    if n < 10 then [digitChar n]
    else digitChar (n % 10) :: natDigitsRevGo fuel (n / 10)

/-- Little-endian decimal digits of a natural number (least significant
first).  Together with the reversal below this models the decimal rendering
performed by `strconv.Itoa` and the integer part of the fmt verbs. -/
def natDigitsRev (n : Nat) : List Char := natDigitsRevGo (n + 1) n

/-- Decimal rendering of a natural number, modelling `strconv.Itoa` and
`fmt` `%d` for nonnegative values. -/
def natRepr (n : Nat) : String := String.mk (natDigitsRev n).reverse

/-- Decimal rendering of an integer. -/
def intRepr (z : Int) : String :=
  if z < 0 then "-" ++ natRepr z.natAbs else natRepr z.natAbs

/-- Value of a little-endian digit list (inverse of `natDigitsRev`). -/
def digitsValRev : List Char → Nat
  | [] => 0
  | c :: rest => digitVal c + 10 * digitsValRev rest

/-- Big-endian digit-string accumulator, the core of the decimal parser. -/
def parseDigitsAux : List Char → Nat → Option Nat
  | [], acc => Option.some acc
  | c :: rest, acc =>
    if c.isDigit then parseDigitsAux rest (acc * 10 + digitVal c) else Option.none

/-- Parse a nonempty big-endian digit string. -/
def parseDigits (cs : List Char) : Option Nat :=
  match cs with
  | [] => Option.none
  | _ => parseDigitsAux cs 0

/-- Split a character list at every occurrence of `sep` (the semantics of Go
`strings.Split`, and the tokenisation the rrd expression parser applies to a
comma-joined RPN string). -/
def splitAllC (sep : Char) : List Char → List (List Char)
  | [] => [[]]
  | c :: cs =>
    match splitAllC sep cs with
    | [] => [[]]
    | p :: ps => if c = sep then [] :: p :: ps else (c :: p) :: ps

/-- The chunk before the first `sep`, and, when a `sep` occurs, the rest
after it. -/
def breakOn (sep : Char) : List Char → List Char × Option (List Char)
  | [] => ([], Option.none)
  | c :: cs =>
    if c = sep then ([], Option.some cs)
    else
      match breakOn sep cs with
      | (pre, rest) => (c :: pre, rest)

/-- Go `strings.SplitN` with a positive count: at most `n` chunks, the last
chunk keeping the remainder of the string. -/
def splitNC (sep : Char) : Nat → List Char → List (List Char)
  | 0, _ => []
  | 1, cs => [cs]
  | n + 2, cs =>
    match breakOn sep cs with
    | (_, Option.none) => [cs]
    | (pre, Option.some rest) => pre :: splitNC sep (n + 1) rest

/-- `strings.SplitN` on strings. -/
def goSplitN (s : String) (sep : Char) (n : Nat) : List String :=
  (splitNC sep n s.data).map String.mk

/-- Go `strings.Join` with a comma separator. -/
def joinComma : List String → String
  | [] => ""
  | [s] => s
  | s :: rest => s ++ "," ++ joinComma rest

/-- A parsed decimal literal without sign: digits with an optional fractional
part. -/
def parseDecimalCore (cs : List Char) : Option ℚ :=
  match splitAllC '.' cs with
  | [ip] =>
    match parseDigits ip with
    | Option.some n => Option.some ((n : Nat) : ℚ)
    | Option.none => Option.none
  | [ip, fp] =>
    match parseDigits ip, parseDigits fp with
    | Option.some a, Option.some b =>
      Option.some ((a : ℚ) + (b : ℚ) / ((10 ^ fp.length : Nat) : ℚ))
    | _, _ => Option.none
  | _ => Option.none

/-- Decimal parsing, the fragment of Go `strconv.ParseFloat` exercised by
the strings this code generates and by simple engine print output: an
optional minus sign, digits, an optional fractional part.  Anything else is
a parse failure (which rrdParseInfo turns into NaN). -/
def parseDecimal (s : String) : Option ℚ :=
  match s.data with
  | [] => parseDecimalCore []
  | c :: rest =>
    if c = '-' then (parseDecimalCore rest).map (fun q => -q)
    else parseDecimalCore (c :: rest)

/-- Round to the nearest integer, ties to even: the rounding `fmt` applies
when printing a float at a fixed precision. -/
def roundHalfEven (q : ℚ) : Int :=
  let f : Int := ⌊q⌋
  let r : ℚ := q - (f : ℚ)
  if r < 1 / 2 then f
  else if 1 / 2 < r then f + 1
  else if f % 2 = 0 then f else f + 1

/-- Left-pad a string with zeros to width `w`. -/
def zeroPad (w : Nat) (s : String) : String :=
  String.mk (List.replicate (w - s.data.length) '0') ++ s

/-- Fixed-point decimal rendering, modelling the `fmt` verbs `%.0f`
(`digits = 0`), `%.2f` and `%f` (six digits): round the value to the given
number of decimal places (ties to even) and print it with exactly that many
fractional digits. -/
def fixedFormat (digits : Nat) (q : ℚ) : String :=
  let scaled : Int := roundHalfEven (q * ((10 ^ digits : Nat) : ℚ))
  let sign : String := if scaled < 0 then "-" else ""
  let a : Nat := scaled.natAbs
  if digits = 0 then sign ++ natRepr a
  else sign ++ natRepr (a / 10 ^ digits) ++ "." ++ zeroPad digits (natRepr (a % 10 ^ digits))

/-- Truncation of a rational toward zero, modelling the Go conversion
`int(x)` on a float. -/
def ratTrunc (q : ℚ) : Int := if q < 0 then -⌊-q⌋ else ⌊q⌋

namespace Backend

/-- A catalog metric entry (package backend).  Only its identity matters to
the claims; connector-private resolution data lives in the connector model. -/
structure Metric where
  name : String
deriving DecidableEq

/-- A catalog source: a named map of metrics. -/
structure Source where
  name : String
  metrics : List (String × Metric)
deriving DecidableEq

/-- A catalog origin: a named map of sources.  The Go struct also carries the
connector reference and a back-pointer to the catalog; neither is needed by
the embedded operations, which receive the connector behaviour as a function
parameter instead. -/
structure Origin where
  name : String
  sources : List (String × Source)
deriving DecidableEq

/-- The Catalog: the origins map and the last-fully-successful-update
timestamp (`time.Time` modelled as an integer). -/
structure Catalog where
  origins : List (String × Origin)
  updated : Int
deriving DecidableEq

/-- `Catalog.MetricExists` from catalog.go lines 52-62: boolean three-level
short-circuit lookup. -/
def Catalog.MetricExists (catalog : Catalog) (origin source name : String) : Bool :=
  match alookup catalog.origins origin with
  | Option.none => false
  | Option.some o =>
    match alookup o.sources source with
    | Option.none => false
    | Option.some s =>
      match alookup s.metrics name with
      | Option.none => false
      | Option.some _ => true

/-- `Catalog.GetMetric` from catalog.go lines 43-49: guard with
`MetricExists`, then the three-level map indexing (which the guard makes
safe; `Option.bind` models the indexing chain). -/
def Catalog.GetMetric (catalog : Catalog) (origin source name : String) : Option Metric :=
  if catalog.MetricExists origin source name = false then Option.none
  else
    (alookup catalog.origins origin).bind fun o =>
      (alookup o.sources source).bind fun s => alookup s.metrics name

/-- The loop body of `Catalog.Update` (catalog.go lines 76-81): `err` is
reassigned by every iteration (successful ones overwrite it with nil), and
`success` is cleared on any failure and never set back.  `upd` stands for
`origin.Update()`: the error it returns and the origin state it leaves
behind.  The updated origins are kept in iteration order. -/
def updateLoop (upd : Origin → Option String × Origin) :
    List (String × Origin) → Option String → Bool →
    Option String × Bool × List (String × Origin)
  | [], err, success => (err, success, [])
  | (name, origin) :: rest, _, success =>
    let r := upd origin
    let res := updateLoop upd rest r.1 (success && r.1.isNone)
    (res.1, res.2.1, (name, r.2) :: res.2.2)

/-- `Catalog.Update` from catalog.go lines 65-93: run every origin, and if
`success` was cleared return the final value of `err` without touching
`Updated`; otherwise advance `Updated` to the current time and return nil. -/
def Catalog.Update (catalog : Catalog) (upd : Origin → Option String × Origin)
    (now : Int) : Option String × Catalog :=
  let res := updateLoop upd catalog.origins Option.none true
  if res.2.1 then (Option.none, { catalog with origins := res.2.2, updated := now })
  else (res.1, { catalog with origins := res.2.2 })

/-- `Catalog.AddOrigin` from catalog.go lines 19-40.  `handlers` stands for
the process-wide `BackendHandlers` registry; a handler takes the freshly
made origin and the raw config and returns the constructor error together
with the origin state it built (Go mutates the origin through a pointer).
The result triple is (returned origin, returned error, catalog state). -/
def Catalog.AddOrigin (catalog : Catalog)
    (handlers : List (String × (Origin → List (String × String) → Option String × Origin)))
    (name : String) (config : List (String × String)) :
    Option Origin × Option String × Catalog :=
  let origin : Origin := { name := name, sources := [] }
  match alookup config "type" with
  | Option.none => (Option.none, Option.some "missing backend type", catalog)
  | Option.some t =>
    match alookup handlers t with
    | Option.none =>
      (Option.none, Option.some ("unknown " ++ t ++ " backend type"), catalog)
    | Option.some handler =>
      match handler origin config with
      | (Option.some e, _) => (Option.none, Option.some e, catalog)
      | (Option.none, origin2) =>
        (Option.some origin2, Option.none,
          { catalog with origins := ainsert catalog.origins name origin2 })

end Backend

namespace Connector

/-- A compiled regular expression, seen through the two `regexp` methods the
connector calls: `SubexpNames` (index 0 is the whole-match empty name) and
`FindStringSubmatch` (empty list when the input does not match).  The
regular-expression engine itself is an external collaborator; a concrete
`Regex` value stands for one compiled pattern. -/
structure Regex where
  subexpNames : List String
  find : String → List String

/-- Connector-private resolution data for one discovered metric
(rrd connector struct `RRDMetric`). -/
structure RRDMetric where
  dataset : String
  filePath : String
deriving DecidableEq

/-- The rrd connector handler: configured path and pattern, plus the private
source → metric-name → RRDMetric table. -/
structure RRDConnectorHandler where
  path : String
  pattern : String
  metrics : List (String × List (String × RRDMetric))
deriving DecidableEq

/-- How a run of the discovery `Update` ends: a Go panic (from
`regexp.MustCompile`, whose documented behaviour on a malformed expression
is to panic), an error return, or a nil return. -/
inductive RRDOutcome where
  | panicked (msg : String)
  | failed (msg : String)
  | ok
deriving DecidableEq

/-- Whether the outcome is an ordinary error value (what the spec calls a
ConfigError / DiscoveryError), as opposed to a panic or success. -/
def RRDOutcome.isErrorValue : RRDOutcome → Bool
  | RRDOutcome.failed _ => true
  | _ => false

/-- One entry handed to the walk callback: the file path, whether it is a
regular file (`fileInfo.Mode() and os.ModeType` equal to zero), and the
walk error argument, if any, for this entry. -/
structure FileEvent where
  filePath : String
  isRegularFile : Bool
  walkErr : Option String
deriving DecidableEq

/-- The discovery-visible state the walk mutates: the private metrics table
and the `(source, metric)` pairs sent on the discovery channel, in order. -/
structure WalkState where
  metrics : List (String × List (String × RRDMetric))
  sent : List (String × String)
deriving DecidableEq

/-- The validation loop over `re.SubexpNames()` (catalog.go lines 161-171):
skip the empty name, record `source` and `metric`, reject any other
keyword.  The two booleans model the `groups` map. -/
def checkKeys : List String → Bool → Bool → Except String (Bool × Bool)
  | [], src, met => Except.ok (src, met)
  | k :: rest, src, met =>
    if k = "" then checkKeys rest src met
    else if k = "source" then checkKeys rest true met
    else if k = "metric" then checkKeys rest src true
    else Except.error ("invalid pattern keyword " ++ k)

/-- The walk callback `walkFunc` (catalog.go lines 180-231).  `rrdInfo`
stands for `rrd.Info`: for a file path, either an error, or the list of
dataset names under the `ds.index` key (`none` when that key is absent).
The relative path `filePath[len(handler.Path)+1:]` is modelled with a
character drop.  Note that the `handler.metrics[source]` submap is created
before `rrd.Info` is consulted, so it survives an info error. -/
def walkFunc (handler : RRDConnectorHandler) (re : Regex)
    (rrdInfo : String → Except String (Option (List String)))
    (st : WalkState) (ev : FileEvent) : Option String × WalkState :=
  match ev.walkErr with
  | Option.some e => (Option.some e, st)
  | Option.none =>
    if ev.isRegularFile = false then (Option.none, st)
    else
      let submatch := re.find (ev.filePath.drop (handler.path.length + 1))
      if submatch.length = 0 then (Option.none, st)
      else
        let g1 := (submatch.get? 1).getD ""
        let g2 := (submatch.get? 2).getD ""
        let source := if re.subexpNames.get? 1 = Option.some "source" then g1 else g2
        let metric := if re.subexpNames.get? 1 = Option.some "source" then g2 else g1
        let st1 : WalkState :=
          match alookup st.metrics source with
          | Option.some _ => st
          | Option.none => { st with metrics := ainsert st.metrics source [] }
        match rrdInfo ev.filePath with
        | Except.error e => (Option.some e, st1)
        | Except.ok Option.none => (Option.none, st1)
        | Except.ok (Option.some dsNames) =>
          (Option.none,
            dsNames.foldl (fun acc ds =>
              let metricName := metric ++ "/" ++ ds
              { metrics := ainsert acc.metrics source
                  (ainsert ((alookup acc.metrics source).getD []) metricName
                    { dataset := ds, filePath := ev.filePath }),
                sent := acc.sent ++ [(source, metricName)] }) st1)

/-- `utils.WalkDir` around the callback: feed every entry in order and abort
at the first callback error, keeping the state mutated so far. -/
def walkDir (handler : RRDConnectorHandler) (re : Regex)
    (rrdInfo : String → Except String (Option (List String))) :
    WalkState → List FileEvent → Option String × WalkState
  | st, [] => (Option.none, st)
  | st, ev :: rest =>
    let r := walkFunc handler re rrdInfo st ev
    match r.1 with
    | Option.some e => (Option.some e, r.2)
    | Option.none => walkDir handler re rrdInfo r.2 rest

/-- The observable result of one discovery `Update` run: how it ended, how
many times the discovery channel was closed, and the final discovery state. -/
structure RRDUpdateResult where
  outcome : RRDOutcome
  closes : Nat
  state : WalkState
deriving DecidableEq

/-- The rrd connector `Update` (catalog.go lines 156-242).  `compile` stands
for `regexp.MustCompile`: `none` models a malformed expression, on which
MustCompile panics.  After pattern validation the directory walk runs; an
error from it is returned at line 235 before the `close` at line 239, so
the channel is closed only on the success path, and exactly once there. -/
def RRDConnectorHandler.Update (handler : RRDConnectorHandler)
    (compile : String → Option Regex)
    (rrdInfo : String → Except String (Option (List String)))
    (events : List FileEvent) : RRDUpdateResult :=
  match compile handler.pattern with
  | Option.none =>
    { outcome := RRDOutcome.panicked "invalid regular expression", closes := 0,
      state := { metrics := handler.metrics, sent := [] } }
  | Option.some re =>
    match checkKeys re.subexpNames false false with
    | Except.error msg =>
      { outcome := RRDOutcome.failed msg, closes := 0,
        state := { metrics := handler.metrics, sent := [] } }
    | Except.ok groups =>
      if groups.1 = false then
        { outcome := RRDOutcome.failed "missing pattern keyword source", closes := 0,
          state := { metrics := handler.metrics, sent := [] } }
      else if groups.2 = false then
        { outcome := RRDOutcome.failed "missing pattern keyword metric", closes := 0,
          state := { metrics := handler.metrics, sent := [] } }
      else
        let walked := walkDir handler re rrdInfo { metrics := handler.metrics, sent := [] } events
        match walked.1 with
        | Option.some e => { outcome := RRDOutcome.failed e, closes := 0, state := walked.2 }
        | Option.none => { outcome := RRDOutcome.ok, closes := 1, state := walked.2 }

/-- The aggregation operator of a group query (`OperGroupType` constants
from the connector package, whose declaration file is not part of this
repository snapshot; the `other` constructor carries any integer code
outside the three named constants, which the query engine rejects with the
unknown-operator error). -/
inductive OperGroupType where
  | none
  | avg
  | sum
  | other (code : Int)
deriving DecidableEq

/-- A resolved metric reference as the query engine reads it:
`serie.Metric.source.Name` and `serie.Metric.OriginalName`. -/
structure Metric where
  sourceName : String
  originalName : String
deriving DecidableEq

/-- One input serie of a group query. -/
structure Serie where
  name : String
  metric : Option Metric
  scale : ℚ
deriving DecidableEq

/-- A group query: named output, ordered series, aggregation operator,
group-level scale. -/
structure GroupQuery where
  name : String
  series : List Serie
  type : OperGroupType
  scale : ℚ
deriving DecidableEq

/-- One request issued to the storage engine while building the plan: the
`Def`, `CDef`, `VDef`, `Print` and `XportDef` calls on the grapher and
exporter objects, with the exact strings the Go code passes. -/
inductive GraphCmd where
  | defSeries (vname filePath dataset cf : String)
  | cdef (vname expr : String)
  | vdef (vname expr : String)
  | print (vname format : String)
  | xportDef (vname legend : String)
deriving DecidableEq

/-- Resolution of a serie metric against the private table,
`handler.metrics[serie.Metric.source.Name][serie.Metric.OriginalName]`.
The queries the claims quantify over reference discovered metrics, for
which both lookups succeed; a missing entry is modelled as the zero value
(in Go it would be a nil-pointer dereference). -/
def resolveMetric (handler : RRDConnectorHandler) (m : Metric) : RRDMetric :=
  (alookup ((alookup handler.metrics m.sourceName).getD []) m.originalName).getD
    { dataset := "", filePath := "" }

/-- The statistic label rendered for one percentile value (catalog.go lines
470-476): two fixed decimals when the value has a fractional part, none
otherwise, followed by th. -/
def percentileLabel (p : ℚ) : String :=
  if p - (ratTrunc p : ℚ) ≠ 0 then fixedFormat 2 p ++ "th" else fixedFormat 0 p ++ "th"

/-- The per-percentile loop of `rrdSetGraph` (catalog.go lines 464-477). -/
def rrdSetGraphPercentiles (serieName itemName : String) : List ℚ → Nat → List GraphCmd
  | [], _ => []
  | p :: rest, index =>
    GraphCmd.cdef (serieName ++ "-cdef" ++ natRepr index)
        (serieName ++ ",UN,0," ++ serieName ++ ",IF") ::
    GraphCmd.vdef (serieName ++ "-vdef" ++ natRepr index)
        (serieName ++ "-cdef" ++ natRepr index ++ "," ++ fixedFormat 6 p ++ ",PERCENT") ::
    (if p - (ratTrunc p : ℚ) ≠ 0 then
      GraphCmd.print (serieName ++ "-vdef" ++ natRepr index)
        (itemName ++ "," ++ fixedFormat 2 p ++ "th,%lf")
    else
      GraphCmd.print (serieName ++ "-vdef" ++ natRepr index)
        (itemName ++ "," ++ fixedFormat 0 p ++ "th,%lf")) ::
    rrdSetGraphPercentiles serieName itemName rest (index + 1)

/-- `rrdSetGraph` (catalog.go lines 451-478): the min/avg/max/last
statistics requests followed by one request per caller-supplied
percentile. -/
def rrdSetGraph (serieName itemName : String) (percentiles : List ℚ) : List GraphCmd :=
  GraphCmd.vdef (serieName ++ "-min") (serieName ++ ",MINIMUM") ::
  GraphCmd.print (serieName ++ "-min") (itemName ++ ",min,%lf") ::
  GraphCmd.vdef (serieName ++ "-avg") (serieName ++ ",AVERAGE") ::
  GraphCmd.print (serieName ++ "-avg") (itemName ++ ",avg,%lf") ::
  GraphCmd.vdef (serieName ++ "-max") (serieName ++ ",MAXIMUM") ::
  GraphCmd.print (serieName ++ "-max") (itemName ++ ",max,%lf") ::
  GraphCmd.vdef (serieName ++ "-last") (serieName ++ ",LAST") ::
  GraphCmd.print (serieName ++ "-last") (itemName ++ ",last,%lf") ::
  rrdSetGraphPercentiles serieName itemName percentiles 0

/-- The `OperGroupTypeNone` branch of `rrdGetData` (catalog.go lines
268-329): one output serie per contributing input serie, with the
per-serie scale and then the group scale chained as `CDef`s, plus the
statistics requests and, unless info-only, the export requests. -/
def noneLoop (handler : RRDConnectorHandler) (queryScale : ℚ) (percentiles : List ℚ)
    (infoOnly : Bool) :
    List Serie → Nat → List GraphCmd → List GraphCmd → List (String × String) →
    Nat × List GraphCmd × List GraphCmd × List (String × String)
  | [], count, g, x, sm => (count, g, x, sm)
  | serie :: rest, count, g, x, sm =>
    match serie.metric with
    | Option.none => noneLoop handler queryScale percentiles infoOnly rest count g x sm
    | Option.some m =>
      let serieTemp := "serie" ++ natRepr count
      let serieName := serie.name
      let rm := resolveMetric handler m
      let scale1 :=
        if serie.scale ≠ 0 then
          GraphCmd.cdef (serieTemp ++ "-orig1")
            (serieTemp ++ "-orig0," ++ fixedFormat 6 serie.scale ++ ",*")
        else GraphCmd.cdef (serieTemp ++ "-orig1") (serieTemp ++ "-orig0")
      let scale2 :=
        if queryScale ≠ 0 then
          GraphCmd.cdef serieTemp (serieTemp ++ "-orig1," ++ fixedFormat 6 queryScale ++ ",*")
        else GraphCmd.cdef serieTemp (serieTemp ++ "-orig1")
      let g2 := g ++ (GraphCmd.defSeries (serieTemp ++ "-orig0") rm.filePath rm.dataset "AVERAGE" ::
        scale1 :: scale2 :: rrdSetGraph serieTemp serieName percentiles)
      let x2 :=
        if infoOnly then x
        else x ++ [GraphCmd.defSeries (serieTemp ++ "-orig0") rm.filePath rm.dataset "AVERAGE",
          scale1, scale2, GraphCmd.xportDef serieTemp serieTemp]
      noneLoop handler queryScale percentiles infoOnly rest (count + 1) g2 x2
        (ainsert sm serieTemp serieName)

/-- The definition/stack loop of the `Avg`/`Sum` branch (catalog.go lines
335-363): define every contributing serie for grapher and exporter, and
push its name on the RPN stack with a `+` between consecutive entries.
`index` counts every serie, contributing or not, as the Go range index
does. -/
def sumLoop (handler : RRDConnectorHandler) (serieName : String) (infoOnly : Bool) :
    List Serie → Nat → List GraphCmd → List GraphCmd → List String →
    List GraphCmd × List GraphCmd × List String
  | [], _, g, x, stack => (g, x, stack)
  | serie :: rest, index, g, x, stack =>
    match serie.metric with
    | Option.none => sumLoop handler serieName infoOnly rest (index + 1) g x stack
    | Option.some m =>
      let serieTemp := serieName ++ "-tmp" ++ natRepr index
      let rm := resolveMetric handler m
      let g1 := g ++ [GraphCmd.defSeries serieTemp rm.filePath rm.dataset "AVERAGE"]
      let x1 :=
        if infoOnly then x
        else x ++ [GraphCmd.defSeries serieTemp rm.filePath rm.dataset "AVERAGE"]
      let stack1 := if stack.length = 0 then stack ++ [serieTemp] else stack ++ [serieTemp, "+"]
      sumLoop handler serieName infoOnly rest (index + 1) g1 x1 stack1

/-- What plan building produces: the grapher requests, the exporter
requests, the temp-name → output-name map, and the query as left behind
(the Go function mutates the caller query through its pointer). -/
structure RRDPlan where
  graphCmds : List GraphCmd
  xportCmds : List GraphCmd
  series : List (String × String)
  query : GroupQuery
deriving DecidableEq

/-- The operator dispatch of `rrdGetData` (catalog.go lines 267-400),
reached after the empty-series check and single-serie normalisation. -/
def rrdGetDataCore (handler : RRDConnectorHandler) (query : GroupQuery)
    (percentiles : List ℚ) (infoOnly : Bool) : Except String RRDPlan :=
  match query.type with
  | OperGroupType.none =>
    let r := noneLoop handler query.scale percentiles infoOnly query.series 0 [] [] []
    Except.ok { graphCmds := r.2.1, xportCmds := r.2.2.1, series := r.2.2.2, query := query }
  | OperGroupType.other code =>
    Except.error ("unknown " ++ intRepr code ++ " operator type")
  | _ =>
    let serieName := "serie" ++ natRepr 0
    let r := sumLoop handler serieName infoOnly query.series 0 [] [] []
    let stack2 :=
      if query.type = OperGroupType.avg then r.2.2 ++ [natRepr query.series.length, "/"]
      else r.2.2
    let scaleCmd :=
      if query.scale ≠ 0 then
        GraphCmd.cdef serieName (serieName ++ "-orig," ++ fixedFormat 6 query.scale ++ ",*")
      else GraphCmd.cdef serieName (serieName ++ "-orig")
    let g2 := r.1 ++ ( GraphCmd.cdef (serieName ++ "-orig") (joinComma stack2) ::
      scaleCmd :: rrdSetGraph serieName query.name percentiles)
    let x2 :=
      if infoOnly then r.2.1
      else r.2.1 ++ [ GraphCmd.cdef (serieName ++ "-orig") (joinComma stack2),
        scaleCmd, GraphCmd.xportDef serieName serieName]
    Except.ok
      { graphCmds := g2, xportCmds := x2,
        series := ainsert [] serieName query.name, query := query }

/-- `rrdGetData` (catalog.go lines 244-432) up to the external export and
graph calls: reject an empty series set, normalise a single-serie query to
`OperGroupTypeNone` (visibly mutating the caller query), and build the
request plan. -/
def RRDConnectorHandler.rrdGetData (handler : RRDConnectorHandler) (query : GroupQuery)
    (percentiles : List ℚ) (infoOnly : Bool) : Except String RRDPlan :=
  if query.series.length = 0 then Except.error "group has no series"
  else
    let query2 :=
      if query.type ≠ OperGroupType.none ∧ query.series.length = 1 then
        { query with type := OperGroupType.none }
      else query
    rrdGetDataCore handler query2 percentiles infoOnly

/-- `GetPlots` (catalog.go lines 131-135): the full export, info and plots.
The time window and step are consumed by the external export call only, so
they do not appear in the plan. -/
def RRDConnectorHandler.GetPlots (handler : RRDConnectorHandler) (query : GroupQuery)
    (percentiles : List ℚ) : Except String RRDPlan :=
  handler.rrdGetData query percentiles false

/-- `GetValue` (catalog.go lines 138-153): the info-only request over a
one-minute window. -/
def RRDConnectorHandler.GetValue (handler : RRDConnectorHandler) (query : GroupQuery)
    (percentiles : List ℚ) : Except String RRDPlan :=
  handler.rrdGetData query percentiles true

/-- A per-output-serie result: raw samples and the statistics map.  A plot
value is `Option ℚ`, `none` standing for NaN/undefined. -/
structure PlotResult where
  plots : List (Option ℚ)
  info : List (String × Option ℚ)
deriving DecidableEq

/-- One iteration of `rrdParseInfo` (catalog.go lines 435-448): split the
print entry into at most three comma-separated chunks, index the third
chunk unconditionally (out of range — a Go panic, modelled as `none` — when
the entry has fewer than three fields), parse it (NaN on failure), and file
it under (chunk 0, chunk 1). -/
def rrdParseInfoStep (data : List (String × PlotResult)) (v : String) :
    Option (List (String × PlotResult)) :=
  match goSplitN v ',' 3 with
  | [c0, c1, c2] =>
    let val : Option ℚ := parseDecimal c2
    let pr := (alookup data c0).getD { plots := [], info := [] }
    Option.some (ainsert data c0 { pr with info := ainsert pr.info c1 val })
  | _ => Option.none

/-- `rrdParseInfo` (catalog.go lines 434-449) over the print entries of the
graph result. -/
def rrdParseInfo (info : List String) (data : List (String × PlotResult)) :
    Option (List (String × PlotResult)) :=
  match info with
  | [] => Option.some data
  | v :: rest =>
    match rrdParseInfoStep data v with
    | Option.none => Option.none
    | Option.some d => rrdParseInfo rest d

/-- Modelled from the spec: the storage engine is an external collaborator
consumed through the interface "apply an arithmetic expression over
previously defined series" (spec section 6); its expression language is
comma-separated RPN.  This evaluates one RPN token list at one sample
position: a token is the operator `+`, `*` or `/`, the name of a previously
defined series, or a numeric literal. -/
def pop2 : List ℚ → Option (ℚ × ℚ × List ℚ)
  | a :: b :: st => Option.some (a, b, st)
  | _ => Option.none

def rpnEvalTok (env : List (String × ℚ)) : List String → List ℚ → Option ℚ
  | [], st =>
    match st with
    | [v] => Option.some v
    | _ => Option.none
  | tok :: rest, st =>
    if tok = "+" then
      match pop2 st with
      | Option.some (a, b, st2) => rpnEvalTok env rest ((b + a) :: st2)
      | Option.none => Option.none
    else if tok = "*" then
      match pop2 st with
      | Option.some (a, b, st2) => rpnEvalTok env rest ((b * a) :: st2)
      | Option.none => Option.none
    else if tok = "/" then
      match pop2 st with
      | Option.some (a, b, st2) => rpnEvalTok env rest ((b / a) :: st2)
      | Option.none => Option.none
    else
      match alookup env tok with
      | Option.some v => rpnEvalTok env rest (v :: st)
      | Option.none =>
        match parseDecimal tok with
        | Option.some c => rpnEvalTok env rest (c :: st)
        | Option.none => Option.none

/-- Modelled from the spec: the storage engine runs the plan in order,
giving a `Def` series the sample read from its file and dataset
(`fileVal`), and a `CDef` series the value of its RPN expression over the
series defined before it; statistics requests do not bind sample values. -/
def evalCmds (fileVal : String → String → ℚ) :
    List GraphCmd → List (String × ℚ) → Option (List (String × ℚ))
  | [], env => Option.some env
  | cmd :: rest, env =>
    match cmd with
    | GraphCmd.defSeries vname fp ds _ => evalCmds fileVal rest ((vname, fileVal fp ds) :: env)
    | GraphCmd.cdef vname expr =>
      match rpnEvalTok env ((splitAllC ',' expr.data).map String.mk) [] with
      | Option.some v => evalCmds fileVal rest ((vname, v) :: env)
      | Option.none => Option.none
    | _ => evalCmds fileVal rest env

/-- The sample value one contributing serie feeds to the fold. -/
def serieVal (handler : RRDConnectorHandler) (fileVal : String → String → ℚ)
    (serie : Serie) : ℚ :=
  match serie.metric with
  | Option.none => 0
  | Option.some m => fileVal (resolveMetric handler m).filePath (resolveMetric handler m).dataset

/-- The sum of the contributing series (those whose metric reference is
present). -/
def contribSum (handler : RRDConnectorHandler) (fileVal : String → String → ℚ)
    (series : List Serie) : ℚ :=
  ((series.filter fun s => s.metric.isSome).map (serieVal handler fileVal)).sum

/-- A rational rounded to six decimal places (ties to even): the numeric
value the engine reads back from a scale printed with the `%f` verb. -/
def sixDec (q : ℚ) : ℚ :=
  ((roundHalfEven (q * ((10 ^ 6 : Nat) : ℚ)) : Int) : ℚ) / ((10 ^ 6 : Nat) : ℚ)

/-- The group scale as the generated plan applies it to a folded value: a
zero scale is a pass-through, a non-zero scale multiplies by its
six-decimal rendering. -/
def groupScaleApply (scale x : ℚ) : ℚ := if scale ≠ 0 then x * sixDec scale else x

end Connector

/-! Concrete instances used by the counterexample and witness theorems. -/

/-- An origin whose refresh fails in the concrete update scenarios. -/
def originA : Backend.Origin := { name := "a", sources := [] }

/-- An origin whose refresh succeeds in the concrete update scenarios. -/
def originB : Backend.Origin := { name := "b", sources := [] }

/-- A catalog holding the two origins above, last updated at time 7. -/
def cexCatalog : Backend.Catalog := { origins := [("a", originA), ("b", originB)], updated := 7 }

/-- A refresh behaviour failing on origin a and succeeding on origin b. -/
def cexUpd (o : Backend.Origin) : Option String × Backend.Origin :=
  if o.name = "a" then (Option.some "discovery failed on a", o) else (Option.none, o)

/-- A refresh behaviour failing on every origin. -/
def wUpd (o : Backend.Origin) : Option String × Backend.Origin :=
  (Option.some ("discovery failed on " ++ o.name), o)

/-- A compiled pattern with the two required capture groups, matching
nothing. -/
def cexRegex : Connector.Regex :=
  { subexpNames := ["", "source", "metric"], find := fun _ => [] }

/-- A compiled pattern with a named group the validation rejects. -/
def wRegex : Connector.Regex :=
  { subexpNames := ["", "source", "host"], find := fun _ => [] }

/-- An rrd connector handler with an empty metrics table. -/
def cexHandler : Connector.RRDConnectorHandler :=
  { path := "/data", pattern := "pat", metrics := [] }

/-- One walk entry whose walk callback receives an error argument. -/
def cexEvents : List Connector.FileEvent :=
  [{ filePath := "/data/f.rrd", isRegularFile := true, walkErr := Option.some "walk failure" }]

/-- A storage metadata reader reporting no datasets. -/
def cexRrdInfo : String → Except String (Option (List String)) := fun _ => Except.ok Option.none

/-- A registry with one backend type whose constructor rejects its config. -/
def wHandlers :
    List (String × (Backend.Origin → List (String × String) → Option String × Backend.Origin)) :=
  [("rrd", fun origin _ => (Option.some "missing path mandatory connector setting", origin))]

/-- A handler table resolving two metrics of one source. -/
def avgHandler : Connector.RRDConnectorHandler :=
  { path := "", pattern := "",
    metrics := [("src1",
      [("m1", { dataset := "ds1", filePath := "f1" }),
       ("m2", { dataset := "ds2", filePath := "f2" })])] }

/-- A contributing serie referencing metric m1. -/
def serie1 : Connector.Serie :=
  { name := "s1", metric := Option.some { sourceName := "src1", originalName := "m1" }, scale := 0 }

/-- A contributing serie referencing metric m2. -/
def serie2 : Connector.Serie :=
  { name := "s2", metric := Option.some { sourceName := "src1", originalName := "m2" }, scale := 0 }

/-- A serie with an absent metric reference. -/
def serieNil : Connector.Serie := { name := "s2", metric := Option.none, scale := 0 }

/-- An Avg query with one contributing and one absent serie, no scale. -/
def avgQueryCex : Connector.GroupQuery :=
  { name := "g", series := [serie1, serieNil], type := Connector.OperGroupType.avg, scale := 0 }

/-- An Avg query with two contributing series and group scale 2. -/
def avgQueryWit : Connector.GroupQuery :=
  { name := "g", series := [serie1, serie2], type := Connector.OperGroupType.avg, scale := 2 }

/-- A single-serie query with an operator code outside the known set. -/
def oneQuery : Connector.GroupQuery :=
  { name := "g", series := [serie1], type := Connector.OperGroupType.other 9, scale := 0 }

/-- A sample reading where every dataset reads 6. -/
def constSix : String → String → ℚ := fun _ _ => 6

/-- A sample reading distinguishing the two files of `avgHandler`. -/
def wFileVal : String → String → ℚ := fun fp _ => if fp = "f1" then 3 else 5

/-- The exporter command list of a plan result (empty on error). -/
def xportOf (r : Except String Connector.RRDPlan) : List Connector.GraphCmd :=
  match r with
  | Except.ok p => p.xportCmds
  | Except.error _ => []

/-- The temp names of the contributing series of an Avg/Sum query, with the
range index each one receives. -/
def contribTemps (sn : String) : List Connector.Serie → Nat → List String
  | [], _ => []
  | s :: rest, index =>
    match s.metric with
    | Option.none => contribTemps sn rest (index + 1)
    | Option.some _ => (sn ++ "-tmp" ++ natRepr index) :: contribTemps sn rest (index + 1)

/-- The storage definitions the Avg/Sum loop emits, one per contributing
serie. -/
def sumDefs (handler : Connector.RRDConnectorHandler) (sn : String) :
    List Connector.Serie → Nat → List Connector.GraphCmd
  | [], _ => []
  | s :: rest, index =>
    match s.metric with
    | Option.none => sumDefs handler sn rest (index + 1)
    | Option.some m =>
      Connector.GraphCmd.defSeries (sn ++ "-tmp" ++ natRepr index)
          (Connector.resolveMetric handler m).filePath
          (Connector.resolveMetric handler m).dataset "AVERAGE" ::
        sumDefs handler sn rest (index + 1)

/-- The environment the storage engine builds from those definitions, in
emission order: each contributing temp name bound to its sample value. -/
def defsEnv (handler : Connector.RRDConnectorHandler) (f : String → String → ℚ) (sn : String) :
    List Connector.Serie → Nat → List (String × ℚ)
  | [], _ => []
  | s :: rest, index =>
    match s.metric with
    | Option.none => defsEnv handler f sn rest (index + 1)
    | Option.some _ =>
      (sn ++ "-tmp" ++ natRepr index, Connector.serieVal handler f s) ::
        defsEnv handler f sn rest (index + 1)

/-- Stack tokens contributed after the first entry: each name followed by
the addition operator. -/
def withPlus : List String → List String
  | [] => []
  | t :: rest => t :: "+" :: withPlus rest

/-- The whole RPN fold stack for a nonempty name list. -/
def stackOf : List String → List String
  | [] => []
  | t :: rest => t :: withPlus rest

/-! Helper lemmas about the catalog operations. -/

/-- `MetricExists` agrees with the three-level lookup chain. -/
theorem metricExists_bind (c : Backend.Catalog) (o s m : String) :
    c.MetricExists o s m =
      ((alookup c.origins o).bind fun og =>
        (alookup og.sources s).bind fun sg => alookup sg.metrics m).isSome := by
  unfold Backend.Catalog.MetricExists
  cases h1 : alookup c.origins o with
  | none => rfl
  | some og =>
    cases h2 : alookup og.sources s with
    | none => simp [h2]
    | some sg =>
      cases h3 : alookup sg.metrics m with
      | none => simp [h2, h3]
      | some _ => simp [h2, h3]

/-- `GetMetric` agrees with the three-level lookup chain. -/
theorem getMetric_bind (c : Backend.Catalog) (o s m : String) :
    c.GetMetric o s m =
      (alookup c.origins o).bind fun og =>
        (alookup og.sources s).bind fun sg => alookup sg.metrics m := by
  unfold Backend.Catalog.GetMetric
  rw [metricExists_bind]
  cases ((alookup c.origins o).bind fun og =>
      (alookup og.sources s).bind fun sg => alookup sg.metrics m) with
  | none => rfl
  | some v => rfl

/-- The origins left behind by the update loop: every origin is attempted
and replaced by its refreshed state, in order. -/
theorem updateLoop_origins (upd : Backend.Origin → Option String × Backend.Origin)
    (l : List (String × Backend.Origin)) (e : Option String) (s : Bool) :
    (Backend.updateLoop upd l e s).2.2 = l.map fun p => (p.1, (upd p.2).2) := by
  induction l generalizing e s with
  | nil => rfl
  | cons p rest ih =>
    obtain ⟨a, b⟩ := p
    simp only [Backend.updateLoop, List.map_cons]
    exact congrArg _ (ih _ _)

/-- The success flag left behind by the update loop. -/
theorem updateLoop_success (upd : Backend.Origin → Option String × Backend.Origin)
    (l : List (String × Backend.Origin)) (e : Option String) (s : Bool) :
    (Backend.updateLoop upd l e s).2.1 = (s && l.all fun p => (upd p.2).1.isNone) := by
  induction l generalizing e s with
  | nil => simp [Backend.updateLoop]
  | cons p rest ih =>
    obtain ⟨a, b⟩ := p
    simp only [Backend.updateLoop, List.all_cons]
    rw [ih]
    cases s <;> cases h : (upd b).1.isNone <;> simp

/-- The error variable left behind by the update loop: the outcome of the
last origin attempted (or the incoming value when there is none). -/
theorem updateLoop_err (upd : Backend.Origin → Option String × Backend.Origin)
    (l : List (String × Backend.Origin)) (e : Option String) (s : Bool) :
    (Backend.updateLoop upd l e s).1 = ((l.getLast?).map fun p => (upd p.2).1).getD e := by
  induction l generalizing e s with
  | nil => rfl
  | cons p rest ih =>
    obtain ⟨a, b⟩ := p
    cases rest with
    | nil =>
      have step : (Backend.updateLoop upd [(a, b)] e s).1 = (upd b).1 := rfl
      rw [step]
      rfl
    | cons q t =>
      have step : (Backend.updateLoop upd ((a, b) :: q :: t) e s).1 =
          (Backend.updateLoop upd (q :: t) (upd b).1 (s && (upd b).1.isNone)).1 := rfl
      rw [step, ih, List.getLast?_cons_cons]
      obtain ⟨v, hv⟩ := Option.isSome_iff_exists.mp
        (List.getLast?_isSome.mpr (List.cons_ne_nil q t))
      rw [hv]
      rfl

/-! The claim theorems. -/

/-- C7: for every catalog state and triple (origin, source, name),
`MetricExists` returns true exactly when `GetMetric` returns a metric, and
both report absence - total functions, no panic - when the origin, the
source within it, or the metric within that source is missing. -/
theorem metricExists_iff_getMetric (c : Backend.Catalog) (o s m : String) :
    (c.MetricExists o s m = true ↔ (c.GetMetric o s m).isSome = true)
  ∧ (alookup c.origins o = Option.none →
      c.MetricExists o s m = false ∧ c.GetMetric o s m = Option.none)
  ∧ (∀ og, alookup c.origins o = Option.some og → alookup og.sources s = Option.none →
      c.MetricExists o s m = false ∧ c.GetMetric o s m = Option.none)
  ∧ (∀ og sg, alookup c.origins o = Option.some og → alookup og.sources s = Option.some sg →
      alookup sg.metrics m = Option.none →
      c.MetricExists o s m = false ∧ c.GetMetric o s m = Option.none) := by
  refine ⟨?_, ?_, ?_, ?_⟩
  · rw [metricExists_bind, getMetric_bind]
  · intro h
    rw [metricExists_bind, getMetric_bind, h]
    exact ⟨rfl, rfl⟩
  · intro og h1 h2
    rw [metricExists_bind, getMetric_bind, h1]
    simp [h2]
  · intro og sg h1 h2 h3
    rw [metricExists_bind, getMetric_bind, h1]
    simp [h2, h3]

/-- C7 witness: a concrete catalog with an unknown origin name. -/
theorem metricExists_iff_getMetric_witness :
    alookup cexCatalog.origins "zzz" = Option.none ∧
    (cexCatalog.MetricExists "zzz" "s" "m" = false ∧
      cexCatalog.GetMetric "zzz" "s" "m" = Option.none) :=
  ⟨by decide, (metricExists_iff_getMetric cexCatalog "zzz" "s" "m").2.1 (by decide)⟩

/-- C8: `AddOrigin` returns a config error and leaves the catalog - in
particular its origins map - unchanged when the type key is absent, when
the named backend type is not registered, and when the registered
constructor rejects the config; no insertion happens on any error path. -/
theorem addOrigin_config_error_atomic (c : Backend.Catalog)
    (handlers :
      List (String × (Backend.Origin → List (String × String) → Option String × Backend.Origin)))
    (name : String) (config : List (String × String)) :
    ((c.AddOrigin handlers name config).2.1.isSome = true →
      (c.AddOrigin handlers name config).2.2 = c ∧
        (c.AddOrigin handlers name config).1 = Option.none)
  ∧ (alookup config "type" = Option.none →
      (c.AddOrigin handlers name config).2.1 = Option.some "missing backend type")
  ∧ (∀ t, alookup config "type" = Option.some t → alookup handlers t = Option.none →
      (c.AddOrigin handlers name config).2.1 = Option.some ("unknown " ++ t ++ " backend type"))
  ∧ (∀ t handler e, alookup config "type" = Option.some t →
      alookup handlers t = Option.some handler →
      (handler { name := name, sources := [] } config).1 = Option.some e →
      (c.AddOrigin handlers name config).2.1 = Option.some e) := by
  refine ⟨?_, ?_, ?_, ?_⟩
  · intro h
    unfold Backend.Catalog.AddOrigin at h ⊢
    cases h1 : alookup config "type" with
    | none => simp [h1]
    | some t =>
      cases h2 : alookup handlers t with
      | none => simp [h1, h2]
      | some handler =>
        cases h3 : handler { name := name, sources := [] } config with
        | mk err og =>
          cases err with
          | none => rw [h1] at h; simp [h2, h3] at h
          | some e => simp [h1, h2, h3]
  · intro h1
    unfold Backend.Catalog.AddOrigin
    simp [h1]
  · intro t h1 h2
    unfold Backend.Catalog.AddOrigin
    simp [h1, h2]
  · intro t handler e h1 h2 h3
    unfold Backend.Catalog.AddOrigin
    cases h4 : handler { name := name, sources := [] } config with
    | mk err og =>
      rw [h4] at h3
      simp at h3
      simp [h1, h2, h4, h3]

/-- C8 witness: a missing type key, an unregistered type, and a registered
constructor rejecting its config, all against a concrete catalog. -/
theorem addOrigin_config_error_atomic_witness :
    (alookup ([("path", "/data")] : List (String × String)) "type" = Option.none ∧
      (cexCatalog.AddOrigin wHandlers "o1" [("path", "/data")]).2.1 =
        Option.some "missing backend type")
  ∧ (alookup ([("type", "zzz")] : List (String × String)) "type" = Option.some "zzz" ∧
      (cexCatalog.AddOrigin wHandlers "o1" [("type", "zzz")]).2.1 =
        Option.some ("unknown " ++ "zzz" ++ " backend type"))
  ∧ ((cexCatalog.AddOrigin wHandlers "o1" [("type", "rrd")]).2.1.isSome = true ∧
      (cexCatalog.AddOrigin wHandlers "o1" [("type", "rrd")]).2.2 = cexCatalog) :=
  ⟨⟨by decide,
      (addOrigin_config_error_atomic cexCatalog wHandlers "o1" [("path", "/data")]).2.1
        (by decide)⟩,
    ⟨by decide,
      (addOrigin_config_error_atomic cexCatalog wHandlers "o1" [("type", "zzz")]).2.2.1 "zzz"
        (by decide) rfl⟩,
    by decide,
    ((addOrigin_config_error_atomic cexCatalog wHandlers "o1" [("type", "rrd")]).1
      (by decide)).1⟩

/-- C1 (amended): `Catalog.Update` attempts every origin and keeps each
refreshed state; a fully clean pass returns nil and advances `Updated` to
the current time; when at least one origin fails, `Updated` is left
unchanged and the call returns the result of the last origin attempted -
which is nil whenever that last origin succeeded, even though an earlier
one failed. -/
theorem catalog_update_last_origin_result (c : Backend.Catalog)
    (upd : Backend.Origin → Option String × Backend.Origin) (now : Int) :
    ((c.Update upd now).2.origins = c.origins.map fun p => (p.1, (upd p.2).2))
  ∧ ((∀ p ∈ c.origins, (upd p.2).1 = Option.none) →
      (c.Update upd now).1 = Option.none ∧ (c.Update upd now).2.updated = now)
  ∧ ((∃ p ∈ c.origins, (upd p.2).1.isSome = true) →
      (c.Update upd now).2.updated = c.updated ∧
      ∃ h : c.origins ≠ [],
        (c.Update upd now).1 = (upd (c.origins.getLast h).2).1) := by
  have horig := updateLoop_origins upd c.origins Option.none true
  have hsucc := updateLoop_success upd c.origins Option.none true
  have herr := updateLoop_err upd c.origins Option.none true
  refine ⟨?_, ?_, ?_⟩
  · unfold Backend.Catalog.Update
    cases hs : (Backend.updateLoop upd c.origins Option.none true).2.1 <;>
      simp [hs, horig]
  · intro hall
    have hallb : (c.origins.all fun p => (upd p.2).1.isNone) = true := by
      rw [List.all_eq_true]
      intro p hp
      rw [hall p hp]
      rfl
    simp only [Backend.Catalog.Update]
    rw [hsucc, hallb]
    exact ⟨rfl, rfl⟩
  · intro hex
    obtain ⟨p, hp, hfail⟩ := hex
    have hne : c.origins ≠ [] := by
      intro hcon
      rw [hcon] at hp
      exact (List.not_mem_nil p) hp
    have hallb : (c.origins.all fun p => (upd p.2).1.isNone) = false := by
      rw [List.all_eq_false]
      refine ⟨p, hp, ?_⟩
      cases hv : (upd p.2).1 with
      | none => rw [hv] at hfail; simp at hfail
      | some e => simp [hv]
    simp only [Backend.Catalog.Update]
    rw [hsucc, hallb]
    refine ⟨rfl, hne, ?_⟩
    rw [herr, List.getLast?_eq_getLast c.origins hne]
    rfl

/-- C1 counterexample: origin a fails and origin b succeeds, yet the call
returns nil - no error at all - while correctly leaving `Updated` at its
prior value 7, refuting that the returned error is non-nil whenever at
least one origin failed. -/
theorem catalog_update_nil_error_counterexample :
    ((cexUpd originA).1.isSome = true)
  ∧ (cexCatalog.Update cexUpd 99).1 = Option.none
  ∧ (cexCatalog.Update cexUpd 99).2.updated = 7 := by decide

/-- C1 witness: with every origin failing, the call returns the last
origin result and leaves `Updated` unchanged. -/
theorem catalog_update_last_origin_result_witness :
    (∃ p ∈ cexCatalog.origins, (wUpd p.2).1.isSome = true) ∧
    ((cexCatalog.Update wUpd 99).2.updated = cexCatalog.updated ∧
      ∃ h : cexCatalog.origins ≠ [],
        (cexCatalog.Update wUpd 99).1 = (wUpd (cexCatalog.origins.getLast h).2).1) :=
  ⟨by decide, (catalog_update_last_origin_result cexCatalog wUpd 99).2.2 (by decide)⟩

/-- C3 (amended): the discovery channel is closed exactly once, and only,
when the directory walk completes successfully; when the walk aborts on an
error (or pattern validation fails, or pattern compilation panics) `Update`
returns without closing the channel. -/
theorem rrd_update_close_on_success (handler : Connector.RRDConnectorHandler)
    (compile : String → Option Connector.Regex)
    (rrdInfo : String → Except String (Option (List String)))
    (events : List Connector.FileEvent) :
    (handler.Update compile rrdInfo events).closes =
      (if (handler.Update compile rrdInfo events).outcome = Connector.RRDOutcome.ok
        then 1 else 0) := by
  unfold Connector.RRDConnectorHandler.Update
  cases compile handler.pattern with
  | none => rfl
  | some re =>
    cases hc : Connector.checkKeys re.subexpNames false false with
    | error msg => simp [hc]
    | ok groups =>
      obtain ⟨src, met⟩ := groups
      cases src with
      | false => simp [hc]
      | true =>
        cases met with
        | false => simp [hc]
        | true =>
          cases hw : (Connector.walkDir handler re rrdInfo
              { metrics := handler.metrics, sent := [] } events).1 with
          | none => simp [hc, hw]
          | some e => simp [hc, hw]

/-- C3 counterexample: a walk aborting on an error returns from `Update`
without closing the discovery channel, refuting that the channel is closed
exactly once on the abort path as well. -/
theorem rrd_update_no_close_on_abort_counterexample :
    (cexHandler.Update (fun _ => Option.some cexRegex) cexRrdInfo cexEvents).outcome =
      Connector.RRDOutcome.failed "walk failure" ∧
    (cexHandler.Update (fun _ => Option.some cexRegex) cexRrdInfo cexEvents).closes = 0 :=
  ⟨rfl, rfl⟩

/-- C4 (amended): a pattern the regular-expression engine cannot compile
makes `Update` panic (`regexp.MustCompile`), not return an error value; a
compilable pattern whose named capture groups are not exactly source and
metric makes `Update` return an error naming the offending or missing
keyword, before any discovery: the metrics table is unchanged and nothing
is sent on the discovery channel. -/
theorem rrd_update_pattern_validation (handler : Connector.RRDConnectorHandler)
    (compile : String → Option Connector.Regex)
    (rrdInfo : String → Except String (Option (List String)))
    (events : List Connector.FileEvent) :
    (compile handler.pattern = Option.none →
      (handler.Update compile rrdInfo events).outcome =
        Connector.RRDOutcome.panicked "invalid regular expression" ∧
      (handler.Update compile rrdInfo events).outcome.isErrorValue = false)
  ∧ (∀ re msg, compile handler.pattern = Option.some re →
      Connector.checkKeys re.subexpNames false false = Except.error msg →
      (handler.Update compile rrdInfo events).outcome = Connector.RRDOutcome.failed msg ∧
      (handler.Update compile rrdInfo events).state.metrics = handler.metrics ∧
      (handler.Update compile rrdInfo events).state.sent = [])
  ∧ (∀ pre k post a b,
      (∀ u ∈ pre, u = "" ∨ u = "source" ∨ u = "metric") →
      k ≠ "" → k ≠ "source" → k ≠ "metric" →
      Connector.checkKeys (pre ++ k :: post) a b =
        Except.error ("invalid pattern keyword " ++ k))
  ∧ (∀ re met, compile handler.pattern = Option.some re →
      Connector.checkKeys re.subexpNames false false = Except.ok (false, met) →
      (handler.Update compile rrdInfo events).outcome =
        Connector.RRDOutcome.failed "missing pattern keyword source" ∧
      (handler.Update compile rrdInfo events).state.metrics = handler.metrics ∧
      (handler.Update compile rrdInfo events).state.sent = [])
  ∧ (∀ re, compile handler.pattern = Option.some re →
      Connector.checkKeys re.subexpNames false false = Except.ok (true, false) →
      (handler.Update compile rrdInfo events).outcome =
        Connector.RRDOutcome.failed "missing pattern keyword metric" ∧
      (handler.Update compile rrdInfo events).state.metrics = handler.metrics ∧
      (handler.Update compile rrdInfo events).state.sent = []) := by
  refine ⟨?_, ?_, ?_, ?_, ?_⟩
  · intro h
    unfold Connector.RRDConnectorHandler.Update
    rw [h]
    exact ⟨rfl, rfl⟩
  · intro re msg h1 h2
    unfold Connector.RRDConnectorHandler.Update
    rw [h1]
    simp [h2]
  · intro pre k post
    induction pre with
    | nil =>
      intro a b hpre hk1 hk2 hk3
      simp [Connector.checkKeys, hk1, hk2, hk3]
    | cons u rest ih =>
      intro a b hpre hk1 hk2 hk3
      have hrest : ∀ v ∈ rest, v = "" ∨ v = "source" ∨ v = "metric" := fun v hv =>
        hpre v (by simp [hv])
      have hu := hpre u (by simp)
      rcases hu with h | h | h <;> subst h <;>
        simp only [List.cons_append, Connector.checkKeys, reduceIte] <;>
        exact ih _ _ hrest hk1 hk2 hk3
  · intro re met h1 h2
    unfold Connector.RRDConnectorHandler.Update
    rw [h1]
    simp [h2]
  · intro re h1 h2
    unfold Connector.RRDConnectorHandler.Update
    rw [h1]
    simp [h2]

/-- C4 counterexample: on a pattern the regular-expression engine rejects,
`Update` ends in a panic and not in an error value, refuting that a
malformed pattern yields an ordinary ConfigError return. -/
theorem rrd_update_invalid_pattern_counterexample :
    (cexHandler.Update (fun _ => Option.none) cexRrdInfo []).outcome =
      Connector.RRDOutcome.panicked "invalid regular expression" ∧
    (cexHandler.Update (fun _ => Option.none) cexRrdInfo []).outcome.isErrorValue = false :=
  ⟨rfl, rfl⟩

/-- C4 witness: a pattern with the foreign named group host is rejected
with an error naming it, and no metrics are registered. -/
theorem rrd_update_pattern_validation_witness :
    Connector.checkKeys wRegex.subexpNames false false =
      Except.error ("invalid pattern keyword " ++ "host") ∧
    ((cexHandler.Update (fun _ => Option.some wRegex) cexRrdInfo cexEvents).outcome =
        Connector.RRDOutcome.failed ("invalid pattern keyword " ++ "host") ∧
      (cexHandler.Update (fun _ => Option.some wRegex) cexRrdInfo cexEvents).state.metrics =
        cexHandler.metrics ∧
      (cexHandler.Update (fun _ => Option.some wRegex) cexRrdInfo cexEvents).state.sent = []) :=
  ⟨rfl,
    (rrd_update_pattern_validation cexHandler (fun _ => Option.some wRegex) cexRrdInfo
      cexEvents).2.1 wRegex ("invalid pattern keyword " ++ "host") rfl rfl⟩

/-- A separator-free list is returned whole by `breakOn`. -/
theorem breakOn_not_mem (sep : Char) (cs : List Char) (h : sep ∉ cs) :
    breakOn sep cs = (cs, Option.none) := by
  induction cs with
  | nil => rfl
  | cons c rest ih =>
    have hc : c ≠ sep := fun hcon => h (by simp [hcon])
    have hrest : sep ∉ rest := fun hcon => h (by simp [hcon])
    simp [breakOn, hc, ih hrest]

/-- `breakOn` splits off the chunk before the first separator. -/
theorem breakOn_mem (sep : Char) (cs : List Char) (h : sep ∈ cs) :
    ∃ pre rest, breakOn sep cs = (pre, Option.some rest) ∧
      cs = pre ++ sep :: rest ∧ sep ∉ pre := by
  induction cs with
  | nil => simp at h
  | cons c rest ih =>
    by_cases hc : c = sep
    · subst hc
      exact ⟨[], rest, by simp [breakOn], rfl, by simp⟩
    · have hmem : sep ∈ rest := by
        rcases List.mem_cons.mp h with h1 | h1
        · exact absurd h1.symm hc
        · exact h1
      obtain ⟨pre, r2, hbreak, hdec, hnotin⟩ := ih hmem
      refine ⟨c :: pre, r2, ?_, ?_, ?_⟩
      · have hcne : ¬(c = sep) := hc
        simp [breakOn, hcne, hbreak]
      · simp [hdec]
      · intro hcon
        rcases List.mem_cons.mp hcon with h1 | h1
        · exact hc h1.symm
        · exact hnotin h1

/-- The chunk count of `SplitN`: one more than the separator count, capped
by the requested limit. -/
theorem splitNC_length (sep : Char) (n : Nat) (cs : List Char) :
    (splitNC sep (n + 1) cs).length = min (cs.count sep + 1) (n + 1) := by
  induction n generalizing cs with
  | zero => simp [splitNC]
  | succ m ih =>
    by_cases hm : sep ∈ cs
    · obtain ⟨pre, rest, hbreak, hdec, hnotin⟩ := breakOn_mem sep cs hm
      have hcount : cs.count sep = rest.count sep + 1 := by
        rw [hdec, List.count_append]
        have h0 : pre.count sep = 0 := List.count_eq_zero.mpr hnotin
        rw [h0, List.count_cons_self]
        omega
      show (splitNC sep (m + 2) cs).length = min (cs.count sep + 1) (m + 2)
      rw [splitNC, hbreak]
      simp only [List.length_cons, ih rest, hcount]
      omega
    · have h0 : cs.count sep = 0 := List.count_eq_zero.mpr hm
      show (splitNC sep (m + 2) cs).length = min (cs.count sep + 1) (m + 2)
      rw [splitNC, breakOn_not_mem sep cs hm, h0]
      simp

/-- A print entry with at least two commas yields a parse step. -/
theorem rrdParseInfoStep_some (data : List (String × Connector.PlotResult)) (v : String)
    (h : 2 ≤ v.data.count ',') :
    ∃ d, Connector.rrdParseInfoStep data v = Option.some d := by
  have hlen : (goSplitN v ',' 3).length = 3 := by
    unfold goSplitN
    rw [List.length_map, show (3 : Nat) = 2 + 1 from rfl, splitNC_length]
    omega
  obtain ⟨a, b, c, habc⟩ := List.length_eq_three.mp hlen
  have hs : (Connector.rrdParseInfoStep data v).isSome = true := by
    unfold Connector.rrdParseInfoStep
    rw [habc]
    rfl
  exact Option.isSome_iff_exists.mp hs

/-- A print entry with fewer than two commas panics the parse step. -/
theorem rrdParseInfoStep_none (data : List (String × Connector.PlotResult)) (v : String)
    (h : v.data.count ',' < 2) :
    Connector.rrdParseInfoStep data v = Option.none := by
  have hlen : (goSplitN v ',' 3).length = v.data.count ',' + 1 := by
    unfold goSplitN
    rw [List.length_map, show (3 : Nat) = 2 + 1 from rfl, splitNC_length]
    omega
  have hcases : v.data.count ',' = 0 ∨ v.data.count ',' = 1 := by omega
  rcases hcases with h1 | h1
  · rw [h1] at hlen
    obtain ⟨a, ha⟩ := List.length_eq_one.mp hlen
    unfold Connector.rrdParseInfoStep
    rw [ha]
  · rw [h1] at hlen
    obtain ⟨a, b, hab⟩ := List.length_eq_two.mp hlen
    unfold Connector.rrdParseInfoStep
    rw [hab]

/-- C10: `rrdParseInfo` is total only when every print entry carries at
least two commas: each entry is split into at most three comma-separated
chunks and the third chunk is indexed unconditionally, so an entry with
fewer than three fields is an out-of-range access (a Go panic, the `none`
outcome here), not a skipped entry and not a NaN statistic. -/
theorem rrdParseInfo_requires_two_commas (prints : List String)
    (data : List (String × Connector.PlotResult)) :
    ((∀ v ∈ prints, 2 ≤ v.data.count ',') →
      (Connector.rrdParseInfo prints data).isSome = true)
  ∧ (∀ pre v post (data2 : List (String × Connector.PlotResult)),
      v.data.count ',' < 2 → (∀ u ∈ pre, 2 ≤ u.data.count ',') →
      Connector.rrdParseInfo (pre ++ v :: post) data2 = Option.none)
  ∧ (∀ w : String, (goSplitN w ',' 3).length ≤ 3) := by
  refine ⟨?_, ?_, ?_⟩
  · intro hall
    induction prints generalizing data with
    | nil => rfl
    | cons v rest ih =>
      obtain ⟨d, hd⟩ := rrdParseInfoStep_some data v (hall v (by simp))
      unfold Connector.rrdParseInfo
      rw [hd]
      exact ih d (fun u hu => hall u (List.mem_cons_of_mem v hu))
  · intro pre v post data2 hv hpre
    induction pre generalizing data2 with
    | nil =>
      rw [List.nil_append]
      unfold Connector.rrdParseInfo
      rw [rrdParseInfoStep_none data2 v hv]
    | cons u rest ih =>
      obtain ⟨d, hd⟩ := rrdParseInfoStep_some data2 u (hpre u (by simp))
      rw [List.cons_append]
      unfold Connector.rrdParseInfo
      rw [hd]
      exact ih d (fun w hw => hpre w (List.mem_cons_of_mem u hw))
  · intro w
    unfold goSplitN
    rw [List.length_map, show (3 : Nat) = 2 + 1 from rfl, splitNC_length]
    omega

/-- C10 witness: two well-formed entries parse, and an entry with a single
comma panics even after a well-formed one. -/
theorem rrdParseInfo_requires_two_commas_witness :
    (∀ v ∈ (["g,min,1.50", "g,avg,nan"] : List String), 2 ≤ v.data.count ',') ∧
    (Connector.rrdParseInfo ["g,min,1.50", "g,avg,nan"] []).isSome = true ∧
    ("g,min".data.count ',' < 2) ∧
    Connector.rrdParseInfo (["g,min,1.50"] ++ "g,min" :: []) [] = Option.none :=
  ⟨by decide,
    (rrdParseInfo_requires_two_commas ["g,min,1.50", "g,avg,nan"] []).1 (by decide),
    by decide,
    (rrdParseInfo_requires_two_commas [] []).2.1 ["g,min,1.50"] "g,min" [] []
      (by decide) (by decide)⟩

/-- Digit rendering does not depend on the fuel once it exceeds the value. -/
theorem natDigitsRevGo_fuel (n : Nat) : ∀ f1 f2, n < f1 → n < f2 →
    natDigitsRevGo f1 n = natDigitsRevGo f2 n := by
  induction n using Nat.strong_induction_on with
  | _ n ih =>
    intro f1 f2 h1 h2
    cases f1 with
    | zero => omega
    | succ fa =>
      cases f2 with
      | zero => omega
      | succ fb =>
        by_cases hn : n < 10
        · simp [natDigitsRevGo, hn]
        · simp only [natDigitsRevGo, hn, if_false]
          have hd : n / 10 < n := Nat.div_lt_self (by omega) (by omega)
          exact congrArg _ (ih (n / 10) hd fa fb (by omega) (by omega))

/-- Small numbers are a single digit. -/
theorem natDigitsRev_lt10 (n : Nat) (h : n < 10) : natDigitsRev n = [digitChar n] := by
  unfold natDigitsRev natDigitsRevGo
  simp [h]

/-- One digit-extraction step for numbers of two or more digits. -/
theorem natDigitsRev_step (n : Nat) (h : 10 ≤ n) :
    natDigitsRev n = digitChar (n % 10) :: natDigitsRev (n / 10) := by
  have h10 : ¬n < 10 := by omega
  have hstep : natDigitsRevGo (n + 1) n =
      if n < 10 then [digitChar n] else digitChar (n % 10) :: natDigitsRevGo n (n / 10) := rfl
  show natDigitsRevGo (n + 1) n = digitChar (n % 10) :: natDigitsRevGo (n / 10 + 1) (n / 10)
  rw [hstep, if_neg h10]
  exact congrArg _ (natDigitsRevGo_fuel (n / 10) n (n / 10 + 1)
    (Nat.div_lt_self (by omega) (by omega)) (Nat.lt_succ_self _))

/-- A digit character decodes back to its value. -/
theorem digitVal_digitChar (d : Nat) (h : d < 10) : digitVal (digitChar d) = d := by
  interval_cases d <;> rfl

/-- Decimal digits decode back to the number (rendering is faithful). -/
theorem digitsValRev_natDigitsRev (n : Nat) : digitsValRev (natDigitsRev n) = n := by
  induction n using Nat.strong_induction_on with
  | _ n ih =>
    by_cases h : n < 10
    · rw [natDigitsRev_lt10 n h]
      simp [digitsValRev, digitVal_digitChar n h]
    · rw [natDigitsRev_step n (by omega), digitsValRev,
        ih (n / 10) (Nat.div_lt_self (by omega) (by omega)),
        digitVal_digitChar (n % 10) (Nat.mod_lt n (by omega))]
      omega

/-- Decimal rendering is injective. -/
theorem natRepr_injective (a b : Nat) (h : natRepr a = natRepr b) : a = b := by
  have hd : (natDigitsRev a).reverse = (natDigitsRev b).reverse := by
    unfold natRepr at h
    injection h
  have hd2 : natDigitsRev a = natDigitsRev b := List.reverse_injective hd
  have hv := congrArg digitsValRev hd2
  rwa [digitsValRev_natDigitsRev, digitsValRev_natDigitsRev] at hv

/-- The digit count of a number below a power of ten. -/
theorem natDigitsRev_length_le (k : Nat) : ∀ n, n < 10 ^ (k + 1) →
    (natDigitsRev n).length ≤ k + 1 := by
  induction k with
  | zero =>
    intro n h
    rw [natDigitsRev_lt10 n (by simpa using h)]
    simp
  | succ m ih =>
    intro n h
    by_cases h10 : n < 10
    · rw [natDigitsRev_lt10 n h10]
      simp
    · rw [natDigitsRev_step n (by omega)]
      simp only [List.length_cons]
      have hdiv : n / 10 < 10 ^ (m + 1) := by
        rw [Nat.div_lt_iff_lt_mul (by omega)]
        calc n < 10 ^ (m + 1 + 1) := h
        _ = 10 ^ (m + 1) * 10 := by ring
      have := ih (n / 10) hdiv
      omega

/-- Rendered length in characters. -/
theorem natRepr_data_length (m : Nat) : (natRepr m).data.length = (natDigitsRev m).length := by
  unfold natRepr
  show ((natDigitsRev m).reverse).length = _
  simp

/-- Zero padding gives the exact requested width. -/
theorem zeroPad_data_length (w : Nat) (s : String) (h : s.data.length ≤ w) :
    (zeroPad w s).data.length = w := by
  unfold zeroPad
  rw [String.data_append]
  have hmk : (String.mk (List.replicate (w - s.data.length) '0')).data =
      List.replicate (w - s.data.length) '0' := rfl
  rw [hmk, List.length_append, List.length_replicate]
  omega

/-- Rounding an integer value is the identity. -/
theorem roundHalfEven_intCast (z : Int) : roundHalfEven ((z : ℚ)) = z := by
  unfold roundHalfEven
  rw [Int.floor_intCast]
  norm_num

/-- Truncating an integer value is the identity. -/
theorem ratTrunc_intCast (z : Int) : ratTrunc ((z : ℚ)) = z := by
  unfold ratTrunc
  by_cases h : ((z : ℚ)) < 0
  · rw [if_pos h, ← Int.cast_neg, Int.floor_intCast]
    omega
  · rw [if_neg h, Int.floor_intCast]

/-- The zero-precision fmt rendering of an integral value. -/
theorem fixedFormat_zero_int (z : Int) : fixedFormat 0 ((z : ℚ)) = intRepr z := by
  unfold fixedFormat intRepr
  simp only [pow_zero, Nat.cast_one, mul_one, roundHalfEven_intCast, if_pos rfl, if_true]
  by_cases h : z < 0
  · rw [if_pos h, if_pos h]
  · rw [if_neg h, if_neg h, String.empty_append]

/-- A whole-number percentile renders with no decimal places. -/
theorem percentileLabel_int (p : ℚ) (h : p.den = 1) :
    Connector.percentileLabel p = intRepr p.num ++ "th" := by
  have hp : ((p.num : Int) : ℚ) = p := (Rat.den_eq_one_iff p).mp h
  unfold Connector.percentileLabel
  rw [← hp, ratTrunc_intCast, sub_self]
  simp only [ne_eq, not_true_eq_false, if_false]
  rw [fixedFormat_zero_int, Rat.num_intCast]

/-- A fractional percentile renders with the two-decimal fmt verb. -/
theorem percentileLabel_frac (p : ℚ) (h : p.den ≠ 1) :
    Connector.percentileLabel p = fixedFormat 2 p ++ "th" := by
  unfold Connector.percentileLabel
  have hne : p - ((ratTrunc p : Int) : ℚ) ≠ 0 := by
    intro hcon
    have hz : p = ((ratTrunc p : Int) : ℚ) := by linarith
    rw [hz] at h
    exact h (Rat.den_intCast _)
  rw [if_pos hne]

/-- The positive-precision fmt rendering carries exactly the requested
number of fractional digits after the decimal point. -/
theorem fixedFormat_pos_shape (d : Nat) (q : ℚ) (hd : d ≠ 0) :
    ∃ s2 frac, fixedFormat d q = s2 ++ "." ++ frac ∧ frac.data.length = d := by
  unfold fixedFormat
  rw [if_neg hd]
  refine ⟨_, _, rfl, ?_⟩
  apply zeroPad_data_length
  rw [natRepr_data_length]
  obtain ⟨e, he⟩ : ∃ e, d = e + 1 := ⟨d - 1, by omega⟩
  rw [he]
  apply natDigitsRev_length_le
  have : (0 : Nat) < 10 ^ (e + 1) := Nat.pos_pow_of_pos _ (by omega)
  exact Nat.mod_lt _ this

/-- Two string literal appends used by the print formats. -/
theorem string_th_lf : ("th" ++ ",%lf" : String) = "th,%lf" := rfl

/-- Reassociation of the percentile print format around the label. -/
theorem print_format_assoc (A f : String) :
    A ++ f ++ "th,%lf" = A ++ (f ++ "th") ++ ",%lf" := by
  rw [String.append_assoc A f, ← string_th_lf, ← String.append_assoc f,
    ← String.append_assoc A]

/-- The denominator of 191/2 is not 1. -/
theorem den_191_half : ((191 : ℚ) / 2).den ≠ 1 := by
  intro h
  have h3 : ((((191 : ℚ) / 2).num : Int) : ℚ) = (191 : ℚ) / 2 := (Rat.den_eq_one_iff _).mp h
  have h4 : (⌊(191 : ℚ) / 2⌋ : Int) = 95 := by norm_num
  have h5 : ((191 : ℚ) / 2).num = 95 := by
    have h6 := congrArg (fun x : ℚ => ⌊x⌋) h3
    simpa [Int.floor_intCast, h4] using h6
  rw [h5] at h3
  norm_num at h3

/-- C5: the statistic label for a caller-supplied percentile is the value
rendered with no decimal places plus th when the value is whole, and with
exactly two decimal places plus th when it is fractional; the label sits in
the middle field of the percentile print request emitted by
`rrdSetGraph`. -/
theorem percentile_label_formatting (serieName itemName : String) (p : ℚ) :
    ((Connector.rrdSetGraph serieName itemName [p]).getLast? =
      Option.some (Connector.GraphCmd.print (serieName ++ "-vdef" ++ natRepr 0)
        (itemName ++ "," ++ Connector.percentileLabel p ++ ",%lf")))
  ∧ (p.den = 1 → Connector.percentileLabel p = intRepr p.num ++ "th")
  ∧ (p.den ≠ 1 → Connector.percentileLabel p = fixedFormat 2 p ++ "th" ∧
      ∃ s2 frac, Connector.percentileLabel p = s2 ++ "." ++ frac ++ "th" ∧
        frac.data.length = 2)
  ∧ Connector.percentileLabel 50 = "50th"
  ∧ Connector.percentileLabel (191 / 2) = "95.50th" := by
  refine ⟨?_, percentileLabel_int p, ?_, ?_, ?_⟩
  · unfold Connector.rrdSetGraph Connector.rrdSetGraphPercentiles Connector.percentileLabel
    by_cases hc : p - ((ratTrunc p : Int) : ℚ) ≠ 0
    · rw [if_pos hc, if_pos hc]
      have htail : Connector.rrdSetGraphPercentiles serieName itemName [] (0 + 1) = [] := rfl
      rw [htail, print_format_assoc (itemName ++ ",") (fixedFormat 2 p)]
      simp only [List.getLast?_cons_cons, List.getLast?_singleton]
    · rw [if_neg hc, if_neg hc]
      have htail : Connector.rrdSetGraphPercentiles serieName itemName [] (0 + 1) = [] := rfl
      rw [htail, print_format_assoc (itemName ++ ",") (fixedFormat 0 p)]
      simp only [List.getLast?_cons_cons, List.getLast?_singleton]
  · intro h
    refine ⟨percentileLabel_frac p h, ?_⟩
    obtain ⟨s2, frac, heq, hlen⟩ := fixedFormat_pos_shape 2 p (by omega)
    exact ⟨s2, frac, by rw [percentileLabel_frac p h, heq], hlen⟩
  · have htr : ratTrunc (50 : ℚ) = 50 := by
      have hlt : ¬((50 : ℚ) < 0) := by norm_num
      have hfl : (⌊(50 : ℚ)⌋ : Int) = 50 := by norm_num
      unfold ratTrunc
      rw [if_neg hlt, hfl]
    have hcond : ¬((50 : ℚ) - ((ratTrunc (50 : ℚ) : Int) : ℚ) ≠ 0) := by
      rw [htr]
      norm_num
    unfold Connector.percentileLabel
    rw [if_neg hcond]
    have harg : (50 : ℚ) * ((10 ^ 0 : Nat) : ℚ) = ((50 : Int) : ℚ) := by norm_num
    unfold fixedFormat
    rw [harg, roundHalfEven_intCast]
    decide
  · have htr : ratTrunc ((191 : ℚ) / 2) = 95 := by
      have hlt : ¬(((191 : ℚ) / 2) < 0) := by norm_num
      have hfl : (⌊(191 : ℚ) / 2⌋ : Int) = 95 := by norm_num
      unfold ratTrunc
      rw [if_neg hlt, hfl]
    have hcond : ((191 : ℚ) / 2) - ((ratTrunc ((191 : ℚ) / 2) : Int) : ℚ) ≠ 0 := by
      rw [htr]
      norm_num
    unfold Connector.percentileLabel
    rw [if_pos hcond]
    have harg : ((191 : ℚ) / 2) * ((10 ^ 2 : Nat) : ℚ) = ((9550 : Int) : ℚ) := by norm_num
    unfold fixedFormat
    rw [harg, roundHalfEven_intCast]
    decide

/-- C5 witness: the fractional percentile 95.5 takes the two-decimal
branch with a two-character fraction field. -/
theorem percentile_label_formatting_witness :
    (((191 : ℚ) / 2).den ≠ 1) ∧
    (Connector.percentileLabel ((191 : ℚ) / 2) = fixedFormat 2 ((191 : ℚ) / 2) ++ "th" ∧
      ∃ s2 frac, Connector.percentileLabel ((191 : ℚ) / 2) = s2 ++ "." ++ frac ++ "th" ∧
        frac.data.length = 2) :=
  ⟨den_191_half,
    (percentile_label_formatting "serie0" "g" ((191 : ℚ) / 2)).2.2.1 den_191_half⟩

/-- Writing the type a query already has back into it changes nothing. -/
theorem query_set_type_self (q : Connector.GroupQuery)
    (h : q.type = Connector.OperGroupType.none) :
    { q with type := Connector.OperGroupType.none } = q := by
  cases q
  simp_all

/-- `rrdGetData` on a nonempty query is the dispatch on the normalised
query. -/
theorem rrdGetData_normalize (handler : Connector.RRDConnectorHandler)
    (query : Connector.GroupQuery) (percentiles : List ℚ) (infoOnly : Bool)
    (hnz : ¬(query.series.length = 0)) :
    handler.rrdGetData query percentiles infoOnly =
      Connector.rrdGetDataCore handler
        (if query.type ≠ Connector.OperGroupType.none ∧ query.series.length = 1 then
          { query with type := Connector.OperGroupType.none } else query) percentiles infoOnly := by
  unfold Connector.RRDConnectorHandler.rrdGetData
  rw [if_neg hnz]

/-- C6: a single-serie query evaluates exactly as the same query with the
operator already set to None - same full result, whatever the operator
value, known or unknown - and it does not fail with the unknown-operator
error. -/
theorem single_serie_normalized_equivalence (handler : Connector.RRDConnectorHandler)
    (query : Connector.GroupQuery) (percentiles : List ℚ) (infoOnly : Bool)
    (h1 : query.series.length = 1) :
    (handler.rrdGetData query percentiles infoOnly =
      handler.rrdGetData { query with type := Connector.OperGroupType.none } percentiles infoOnly)
  ∧ (∃ plan, handler.rrdGetData query percentiles infoOnly = Except.ok plan) := by
  have hnz : ¬(query.series.length = 0) := by omega
  have hnz2 : ¬(({ query with type := Connector.OperGroupType.none } :
      Connector.GroupQuery).series.length = 0) := hnz
  have hcondB : ¬(({ query with type := Connector.OperGroupType.none } :
      Connector.GroupQuery).type ≠ Connector.OperGroupType.none ∧
      ({ query with type := Connector.OperGroupType.none } :
        Connector.GroupQuery).series.length = 1) := by
    simp
  have heq : handler.rrdGetData query percentiles infoOnly =
      handler.rrdGetData { query with type := Connector.OperGroupType.none }
        percentiles infoOnly := by
    rw [rrdGetData_normalize handler query percentiles infoOnly hnz,
      rrdGetData_normalize handler _ percentiles infoOnly hnz2, if_neg hcondB]
    by_cases hq : query.type = Connector.OperGroupType.none
    · rw [if_neg (by simp [hq]), query_set_type_self query hq]
    · rw [if_pos ⟨hq, h1⟩]
  refine ⟨heq, ?_⟩
  rw [heq, rrdGetData_normalize handler _ percentiles infoOnly hnz2, if_neg hcondB]
  exact ⟨_, rfl⟩

/-- C6 witness: a single-serie query with an operator code outside the
known set evaluates as with None and does not fail. -/
theorem single_serie_normalized_equivalence_witness :
    oneQuery.series.length = 1 ∧
    (avgHandler.rrdGetData oneQuery [] false =
      avgHandler.rrdGetData { oneQuery with type := Connector.OperGroupType.none } [] false) ∧
    (∃ plan, avgHandler.rrdGetData oneQuery [] false = Except.ok plan) :=
  ⟨by decide, (single_serie_normalized_equivalence avgHandler oneQuery [] false (by decide)).1,
    (single_serie_normalized_equivalence avgHandler oneQuery [] false (by decide)).2⟩

/-- C9: on a single-serie query whose operator is not None, both `GetPlots`
and `GetValue` leave behind a caller-visible query whose Type field has
been overwritten with None, all other fields unchanged, and both succeed at
the plan stage. -/
theorem query_type_mutation_visible (handler : Connector.RRDConnectorHandler)
    (query : Connector.GroupQuery) (percentiles : List ℚ)
    (h1 : query.series.length = 1) (h2 : query.type ≠ Connector.OperGroupType.none) :
    (∀ plan, handler.GetPlots query percentiles = Except.ok plan →
      plan.query = { query with type := Connector.OperGroupType.none } ∧
      plan.query.type = Connector.OperGroupType.none ∧ plan.query.name = query.name ∧
      plan.query.series = query.series ∧ plan.query.scale = query.scale)
  ∧ (∀ plan, handler.GetValue query percentiles = Except.ok plan →
      plan.query = { query with type := Connector.OperGroupType.none } ∧
      plan.query.type = Connector.OperGroupType.none ∧ plan.query.name = query.name ∧
      plan.query.series = query.series ∧ plan.query.scale = query.scale)
  ∧ (∃ plan, handler.GetPlots query percentiles = Except.ok plan)
  ∧ (∃ plan, handler.GetValue query percentiles = Except.ok plan) := by
  have hnz : ¬(query.series.length = 0) := by omega
  have hplots : handler.GetPlots query percentiles =
      Connector.rrdGetDataCore handler { query with type := Connector.OperGroupType.none }
        percentiles false := by
    unfold Connector.RRDConnectorHandler.GetPlots
    rw [rrdGetData_normalize handler query percentiles false hnz, if_pos ⟨h2, h1⟩]
  have hvalue : handler.GetValue query percentiles =
      Connector.rrdGetDataCore handler { query with type := Connector.OperGroupType.none }
        percentiles true := by
    unfold Connector.RRDConnectorHandler.GetValue
    rw [rrdGetData_normalize handler query percentiles true hnz, if_pos ⟨h2, h1⟩]
  have hcore : ∀ io : Bool, ∃ plan,
      Connector.rrdGetDataCore handler { query with type := Connector.OperGroupType.none }
        percentiles io = Except.ok plan ∧
      plan.query = { query with type := Connector.OperGroupType.none } := fun io =>
    ⟨_, rfl, rfl⟩
  obtain ⟨planP, hP, hPq⟩ := hcore false
  obtain ⟨planV, hV, hVq⟩ := hcore true
  refine ⟨?_, ?_, ⟨planP, by rw [hplots]; exact hP⟩, ⟨planV, by rw [hvalue]; exact hV⟩⟩
  · intro plan hplan
    rw [hplots, hP] at hplan
    have hpp : plan = planP := by
      injection hplan.symm
    subst hpp
    rw [hPq]
    exact ⟨rfl, rfl, rfl, rfl, rfl⟩
  · intro plan hplan
    rw [hvalue, hV] at hplan
    have hpp : plan = planV := by
      injection hplan.symm
    subst hpp
    rw [hVq]
    exact ⟨rfl, rfl, rfl, rfl, rfl⟩

/-- C9 witness: a concrete single-serie query with an unknown operator code
is visibly rewritten to None by both entry points. -/
theorem query_type_mutation_visible_witness :
    (oneQuery.series.length = 1 ∧ oneQuery.type ≠ Connector.OperGroupType.none) ∧
    (∃ plan, avgHandler.GetPlots oneQuery [] = Except.ok plan) ∧
    (∃ plan, avgHandler.GetValue oneQuery [] = Except.ok plan) :=
  ⟨⟨by decide, by decide⟩,
    (query_type_mutation_visible avgHandler oneQuery [] (by decide) (by decide)).2.2.1,
    (query_type_mutation_visible avgHandler oneQuery [] (by decide) (by decide)).2.2.2⟩

/-- Splitting a separator-free list returns it whole. -/
theorem splitAllC_no_sep (sep : Char) (cs : List Char) (h : sep ∉ cs) :
    splitAllC sep cs = [cs] := by
  induction cs with
  | nil => rfl
  | cons c rest ih =>
    have hc : ¬(c = sep) := fun hcon => h (by simp [hcon])
    have hrest : sep ∉ rest := fun hcon => h (by simp [hcon])
    simp [splitAllC, ih hrest, hc]

/-- Splitting never yields the empty chunk list. -/
theorem splitAllC_ne_nil (sep : Char) (cs : List Char) : splitAllC sep cs ≠ [] := by
  induction cs with
  | nil => simp [splitAllC]
  | cons c rest ih =>
    simp only [splitAllC]
    cases h : splitAllC sep rest with
    | nil => simp
    | cons p ps => by_cases hc : c = sep <;> simp [hc]

/-- Splitting around an explicit separator peels off the leading chunk. -/
theorem splitAllC_append_sep (sep : Char) (pre tail : List Char) (h : sep ∉ pre) :
    splitAllC sep (pre ++ sep :: tail) = pre :: splitAllC sep tail := by
  induction pre with
  | nil =>
    simp only [List.nil_append, splitAllC]
    obtain ⟨p, ps, hps⟩ := List.exists_cons_of_ne_nil (splitAllC_ne_nil sep tail)
    rw [hps]
    simp
  | cons c rest ih =>
    have hc : ¬(c = sep) := fun hcon => h (by simp [hcon])
    have hrest : sep ∉ rest := fun hcon => h (by simp [hcon])
    simp only [List.cons_append, splitAllC, List.append_eq]
    rw [ih hrest]
    simp [hc]

/-- The engine tokenisation of a comma-joined stack recovers the stack. -/
theorem tokenize_joinComma (stack : List String) (hne : stack ≠ [])
    (hfree : ∀ s ∈ stack, ',' ∉ s.data) :
    (splitAllC ',' (joinComma stack).data).map String.mk = stack := by
  induction stack with
  | nil => exact absurd rfl hne
  | cons s rest ih =>
    cases rest with
    | nil =>
      show (splitAllC ',' (joinComma [s]).data).map String.mk = [s]
      have hj : joinComma [s] = s := rfl
      rw [hj, splitAllC_no_sep ',' s.data (hfree s (by simp))]
      rfl
    | cons t ts =>
      have hdata : (joinComma (s :: t :: ts)).data =
          s.data ++ ',' :: (joinComma (t :: ts)).data := by
        show ((s ++ ",") ++ joinComma (t :: ts)).data = _
        rw [String.data_append, String.data_append, List.append_assoc]
        rfl
      rw [hdata, splitAllC_append_sep ',' s.data _ (hfree s (by simp)), List.map_cons,
        ih (by simp) (fun u hu => hfree u (List.mem_cons_of_mem s hu))]

/-- Evaluation distributes over command-list concatenation. -/
theorem evalCmds_append (f : String → String → ℚ) (a b : List Connector.GraphCmd)
    (env : List (String × ℚ)) :
    Connector.evalCmds f (a ++ b) env =
      (Connector.evalCmds f a env).bind fun e2 => Connector.evalCmds f b e2 := by
  induction a generalizing env with
  | nil => rfl
  | cons cmd rest ih =>
    cases cmd with
    | defSeries vname fp ds cf =>
      simp only [List.cons_append, Connector.evalCmds]
      exact ih _
    | cdef vname expr =>
      simp only [List.cons_append, Connector.evalCmds]
      cases Connector.rpnEvalTok env ((splitAllC ',' expr.data).map String.mk) [] with
      | none => rfl
      | some v => exact ih _
    | vdef vname expr =>
      simp only [List.cons_append, Connector.evalCmds]
      exact ih _
    | print vname fmt =>
      simp only [List.cons_append, Connector.evalCmds]
      exact ih _
    | xportDef vname legend =>
      simp only [List.cons_append, Connector.evalCmds]
      exact ih _

/-- A lookup hit names a key of the list. -/
theorem alookup_mem_of_some {β : Type} (l : List (String × β)) (key : String) (v : β)
    (h : alookup l key = Option.some v) : key ∈ l.map Prod.fst := by
  induction l with
  | nil => simp [alookup] at h
  | cons p rest ih =>
    rw [alookup] at h
    by_cases hk : key = p.1
    · simp [hk]
    · rw [if_neg hk] at h
      simp [ih h]

/-- Lookup scans an append left to right. -/
theorem alookup_append {β : Type} (l1 l2 : List (String × β)) (key : String) :
    alookup (l1 ++ l2) key =
      match alookup l1 key with
      | Option.some v => Option.some v
      | Option.none => alookup l2 key := by
  induction l1 with
  | nil => rfl
  | cons p rest ih =>
    obtain ⟨a, b⟩ := p
    by_cases hk : key = a
    · simp [alookup, hk]
    · simp [alookup, hk, ih]

/-- Lookup misses a list none of whose keys match. -/
theorem alookup_none_of_forall {β : Type} (l : List (String × β)) (key : String)
    (h : ∀ p ∈ l, p.1 ≠ key) : alookup l key = Option.none := by
  induction l with
  | nil => rfl
  | cons p rest ih =>
    obtain ⟨a, b⟩ := p
    show alookup ((a, b) :: rest) key = Option.none
    rw [alookup, if_neg (fun hcon => h (a, b) (List.mem_cons_self _ _) hcon.symm)]
    exact ih (fun q hq => h q (List.mem_cons_of_mem _ hq))

/-- With distinct keys, every entry is found at its own key. -/
theorem alookup_self_of_nodup {β : Type} (l : List (String × β))
    (h : (l.map Prod.fst).Nodup) : ∀ p ∈ l, alookup l p.1 = Option.some p.2 := by
  induction l with
  | nil => intro p hp; simp at hp
  | cons q rest ih =>
    intro p hp
    obtain ⟨a, b⟩ := q
    rw [List.map_cons, List.nodup_cons] at h
    rcases List.mem_cons.mp hp with h1 | h1
    · subst h1
      simp [alookup]
    · have hne : ¬(p.1 = a) := by
        intro hcon
        exact h.1 (List.mem_map.mpr ⟨p, h1, hcon⟩)
      show alookup ((a, b) :: rest) p.1 = Option.some p.2
      rw [alookup, if_neg hne]
      exact ih h.2 p h1

/-- With distinct keys, lookup ignores reversal. -/
theorem alookup_reverse_nodup {β : Type} (l : List (String × β))
    (h : (l.map Prod.fst).Nodup) (key : String) :
    alookup l.reverse key = alookup l key := by
  induction l with
  | nil => rfl
  | cons p rest ih =>
    obtain ⟨a, b⟩ := p
    rw [List.map_cons, List.nodup_cons] at h
    rw [List.reverse_cons, alookup_append]
    by_cases hk : key = a
    · subst hk
      have hrev : alookup rest.reverse key = Option.none := by
        rw [ih h.2]
        cases hcase : alookup rest key with
        | none => rfl
        | some v => exact absurd (alookup_mem_of_some rest key v hcase) h.1
      rw [hrev]
      simp [alookup]
    · rw [ih h.2]
      cases hcase : alookup rest key with
      | none => simp [alookup, hk, hcase]
      | some v => simp [alookup, hk, hcase]

/-- Distinct range indices give distinct temp names. -/
theorem temp_ne (sn : String) (a b : Nat) (h : a ≠ b) :
    sn ++ "-tmp" ++ natRepr a ≠ sn ++ "-tmp" ++ natRepr b := by
  intro hcon
  have hd := congrArg String.data hcon
  rw [String.data_append, String.data_append] at hd
  exact h (natRepr_injective a b (String.ext (List.append_cancel_left hd)))

/-- Every temp name records an index at or past the starting one. -/
theorem contribTemps_mem (sn : String) :
    ∀ (series : List Connector.Serie) (index : Nat) (t : String),
      t ∈ contribTemps sn series index → ∃ j, index ≤ j ∧ t = sn ++ "-tmp" ++ natRepr j := by
  intro series
  induction series with
  | nil =>
    intro index t ht
    simp [contribTemps] at ht
  | cons s rest ih =>
    intro index t ht
    cases hm : s.metric with
    | none =>
      rw [contribTemps, hm] at ht
      obtain ⟨j, hj, ht2⟩ := ih (index + 1) t ht
      exact ⟨j, by omega, ht2⟩
    | some m =>
      rw [contribTemps, hm] at ht
      rcases List.mem_cons.mp ht with h1 | h1
      · exact ⟨index, Nat.le_refl index, h1⟩
      · obtain ⟨j, hj, ht2⟩ := ih (index + 1) t h1
        exact ⟨j, by omega, ht2⟩

/-- The temp names of one loop run are pairwise distinct. -/
theorem contribTemps_nodup (sn : String) :
    ∀ (series : List Connector.Serie) (index : Nat), (contribTemps sn series index).Nodup := by
  intro series
  induction series with
  | nil =>
    intro index
    simp [contribTemps]
  | cons s rest ih =>
    intro index
    cases hm : s.metric with
    | none =>
      rw [contribTemps, hm]
      exact ih (index + 1)
    | some m =>
      rw [contribTemps, hm, List.nodup_cons]
      refine ⟨?_, ih (index + 1)⟩
      intro hmem
      obtain ⟨j, hj, ht⟩ := contribTemps_mem sn rest (index + 1) _ hmem
      exact temp_ne sn index j (by omega) ht

/-- The keys of the definition environment are the temp names. -/
theorem defsEnv_keys (handler : Connector.RRDConnectorHandler) (f : String → String → ℚ)
    (sn : String) : ∀ (series : List Connector.Serie) (index : Nat),
    (defsEnv handler f sn series index).map Prod.fst = contribTemps sn series index := by
  intro series
  induction series with
  | nil =>
    intro index
    rfl
  | cons s rest ih =>
    intro index
    cases hm : s.metric with
    | none =>
      rw [defsEnv, contribTemps, hm]
      exact ih (index + 1)
    | some m =>
      rw [defsEnv, contribTemps, hm, List.map_cons, ih (index + 1)]

/-- The values of the definition environment are the contributing sample
values, in order. -/
theorem defsEnv_values (handler : Connector.RRDConnectorHandler) (f : String → String → ℚ)
    (sn : String) : ∀ (series : List Connector.Serie) (index : Nat),
    (defsEnv handler f sn series index).map Prod.snd =
      ((series.filter fun s => s.metric.isSome).map (Connector.serieVal handler f)) := by
  intro series
  induction series with
  | nil =>
    intro index
    rfl
  | cons s rest ih =>
    intro index
    cases hm : s.metric with
    | none =>
      rw [defsEnv, hm]
      have hf : (s.metric).isSome = false := by rw [hm]; rfl
      simp only [List.filter_cons, hf, Bool.false_eq_true, if_false]
      exact ih (index + 1)
    | some m =>
      rw [defsEnv, hm]
      have hf : (s.metric).isSome = true := by rw [hm]; rfl
      simp only [List.filter_cons, hf, if_true, List.map_cons]
      rw [ih (index + 1)]

/-- Running the emitted definitions builds exactly the reversed definition
environment on top of the incoming one. -/
theorem evalCmds_sumDefs (handler : Connector.RRDConnectorHandler) (f : String → String → ℚ)
    (sn : String) : ∀ (series : List Connector.Serie) (index : Nat) (env : List (String × ℚ)),
    Connector.evalCmds f (sumDefs handler sn series index) env =
      Option.some ((defsEnv handler f sn series index).reverse ++ env) := by
  intro series
  induction series with
  | nil =>
    intro index env
    rfl
  | cons s rest ih =>
    intro index env
    cases hm : s.metric with
    | none =>
      rw [sumDefs, defsEnv, hm]
      exact ih (index + 1) env
    | some m =>
      rw [sumDefs, defsEnv, hm]
      show Connector.evalCmds f _ _ = _
      rw [Connector.evalCmds, ih (index + 1)]
      have hv : Connector.serieVal handler f s =
          f (Connector.resolveMetric handler m).filePath
            (Connector.resolveMetric handler m).dataset := by
        unfold Connector.serieVal
        rw [hm]
      rw [List.reverse_cons, List.append_assoc, hv]
      rfl

/-- A digit character is a digit. -/
theorem digitChar_isDigit (d : Nat) (h : d < 10) : (digitChar d).isDigit = true := by
  interval_cases d <;> decide

/-- Every rendered character is a digit. -/
theorem natDigitsRev_isDigit (n : Nat) : ∀ c ∈ natDigitsRev n, c.isDigit = true := by
  induction n using Nat.strong_induction_on with
  | _ n ih =>
    by_cases h : n < 10
    · rw [natDigitsRev_lt10 n h]
      intro c hc
      rw [List.mem_singleton] at hc
      subst hc
      exact digitChar_isDigit n h
    · rw [natDigitsRev_step n (by omega)]
      intro c hc
      rcases List.mem_cons.mp hc with h1 | h1
      · subst h1
        exact digitChar_isDigit (n % 10) (Nat.mod_lt n (by omega))
      · exact ih (n / 10) (Nat.div_lt_self (by omega) (by omega)) c h1

/-- Rendering never yields the empty digit list. -/
theorem natDigitsRev_ne_nil (n : Nat) : natDigitsRev n ≠ [] := by
  by_cases h : n < 10
  · rw [natDigitsRev_lt10 n h]
    simp
  · rw [natDigitsRev_step n (by omega)]
    simp

/-- A rendered number starts with a digit. -/
theorem natRepr_head (n : Nat) : ∃ c t, (natRepr n).data = c :: t ∧ c.isDigit = true := by
  have hne : (natDigitsRev n).reverse ≠ [] := by
    simp [natDigitsRev_ne_nil n]
  obtain ⟨c, t, hct⟩ := List.exists_cons_of_ne_nil hne
  refine ⟨c, t, hct, ?_⟩
  have hc : c ∈ (natDigitsRev n).reverse := by
    rw [hct]
    exact List.mem_cons_self _ _
  exact natDigitsRev_isDigit n c (List.mem_reverse.mp hc)

/-- No comma occurs in a rendered number. -/
theorem natRepr_no_comma (n : Nat) : ',' ∉ (natRepr n).data := by
  show ',' ∉ (natDigitsRev n).reverse
  intro hmem
  have hd := natDigitsRev_isDigit n ',' (List.mem_reverse.mp hmem)
  exact absurd hd (by decide)

/-- The head of an append is the head of its nonempty left part. -/
theorem append_head (s t : String) (c : Char) (cs : List Char) (h : s.data = c :: cs) :
    (s ++ t).data = c :: (cs ++ t.data) := by
  rw [String.data_append, h]
  rfl

/-- Strings with different head characters differ. -/
theorem ne_of_head (a b : String) (ca cb : Char) (ta tb : List Char)
    (ha : a.data = ca :: ta) (hb : b.data = cb :: tb) (hne : ca ≠ cb) : a ≠ b := by
  intro hcon
  rw [hcon, hb] at ha
  injection ha with h1 h2
  exact hne h1.symm

/-- The fmt fixed-point body, with the sign factored out. -/
theorem fixedFormat_body (d : Nat) (q : ℚ) :
    fixedFormat d q =
      (if roundHalfEven (q * ((10 ^ d : Nat) : ℚ)) < 0 then "-" else "") ++
        (if d = 0 then natRepr (roundHalfEven (q * ((10 ^ d : Nat) : ℚ))).natAbs
         else natRepr ((roundHalfEven (q * ((10 ^ d : Nat) : ℚ))).natAbs / 10 ^ d) ++ "." ++
           zeroPad d (natRepr ((roundHalfEven (q * ((10 ^ d : Nat) : ℚ))).natAbs % 10 ^ d))) := by
  unfold fixedFormat
  by_cases hs : roundHalfEven (q * ((10 ^ d : Nat) : ℚ)) < 0 <;>
    by_cases hd : d = 0 <;> simp [hs, hd, String.append_assoc]

/-- A fmt fixed-point rendering starts with a sign or a digit. -/
theorem fixedFormat_head (d : Nat) (q : ℚ) :
    ∃ c t, (fixedFormat d q).data = c :: t ∧ (c = '-' ∨ c.isDigit = true) := by
  rw [fixedFormat_body]
  by_cases hs : roundHalfEven (q * ((10 ^ d : Nat) : ℚ)) < 0
  · rw [if_pos hs]
    exact ⟨'-', _, append_head "-" _ '-' [] rfl, Or.inl rfl⟩
  · rw [if_neg hs, String.empty_append]
    by_cases hd : d = 0
    · rw [if_pos hd]
      obtain ⟨c, t, hct, hdig⟩ := natRepr_head _
      exact ⟨c, t, hct, Or.inr hdig⟩
    · rw [if_neg hd]
      obtain ⟨c, t, hct, hdig⟩ := natRepr_head
        ((roundHalfEven (q * ((10 ^ d : Nat) : ℚ))).natAbs / 10 ^ d)
      exact ⟨c, _, append_head _ _ c _ (append_head _ "." c t hct), Or.inr hdig⟩

/-- Zero padding introduces no comma. -/
theorem zeroPad_no_comma (w : Nat) (s : String) (h : ',' ∉ s.data) :
    ',' ∉ (zeroPad w s).data := by
  unfold zeroPad
  rw [String.data_append]
  intro hmem
  rcases List.mem_append.mp hmem with h1 | h1
  · have h2 : (',' : Char) ∈ List.replicate (w - s.data.length) '0' := h1
    have h3 := List.eq_of_mem_replicate h2
    exact absurd h3 (by decide)
  · exact h h1

/-- A fmt fixed-point rendering contains no comma. -/
theorem fixedFormat_no_comma (d : Nat) (q : ℚ) : ',' ∉ (fixedFormat d q).data := by
  rw [fixedFormat_body]
  intro hmem
  rw [String.data_append] at hmem
  rcases List.mem_append.mp hmem with h1 | h1
  · by_cases hs : roundHalfEven (q * ((10 ^ d : Nat) : ℚ)) < 0
    · rw [if_pos hs] at h1
      have : (',' : Char) ∈ ['-'] := h1
      exact absurd this (by decide)
    · rw [if_neg hs] at h1
      have : (',' : Char) ∈ ([] : List Char) := h1
      exact absurd this (by simp)
  · by_cases hd : d = 0
    · rw [if_pos hd] at h1
      exact natRepr_no_comma _ h1
    · rw [if_neg hd] at h1
      rw [String.data_append, String.data_append] at h1
      rcases List.mem_append.mp h1 with h2 | h2
      · rcases List.mem_append.mp h2 with h3 | h3
        · exact natRepr_no_comma _ h3
        · have h4 : (',' : Char) ∈ ['.'] := h3
          exact absurd h4 (by decide)
      · exact zeroPad_no_comma d _ (natRepr_no_comma _) h2

/-- A character failing the digit test does not occur in a rendered
number. -/
theorem natRepr_not_mem (n : Nat) (ch : Char) (h : ch.isDigit = false) :
    ch ∉ (natRepr n).data := by
  show ch ∉ (natDigitsRev n).reverse
  intro hmem
  have hd := natDigitsRev_isDigit n ch (List.mem_reverse.mp hmem)
  rw [hd] at h
  exact absurd h (by decide)

/-- Digit parsing distributes over appends. -/
theorem parseDigitsAux_append (xs ys : List Char) (acc : Nat) :
    parseDigitsAux (xs ++ ys) acc =
      match parseDigitsAux xs acc with
      | Option.some m => parseDigitsAux ys m
      | Option.none => Option.none := by
  induction xs generalizing acc with
  | nil => rfl
  | cons c rest ih =>
    show parseDigitsAux (c :: (rest ++ ys)) acc = _
    by_cases hc : c.isDigit = true
    · simp only [parseDigitsAux, hc, if_true]
      exact ih _
    · simp only [parseDigitsAux, hc, Bool.false_eq_true, if_false]

/-- Parsing the reversed little-endian digits recovers the value. -/
theorem parseDigitsAux_reverse (l : List Char) (hl : ∀ c ∈ l, c.isDigit = true) (acc : Nat) :
    parseDigitsAux l.reverse acc = Option.some (acc * 10 ^ l.length + digitsValRev l) := by
  induction l generalizing acc with
  | nil => simp [parseDigitsAux, digitsValRev]
  | cons c rest ih =>
    rw [List.reverse_cons, parseDigitsAux_append,
      ih (fun x hx => hl x (List.mem_cons_of_mem c hx)) acc]
    show parseDigitsAux [c] _ = _
    simp only [parseDigitsAux, hl c (List.mem_cons_self c rest), if_true]
    show Option.some _ = _
    congr 1
    rw [digitsValRev, List.length_cons, pow_succ]
    ring

/-- Parsing a rendered number recovers it. -/
theorem parseDigits_natRepr (n : Nat) : parseDigits (natRepr n).data = Option.some n := by
  obtain ⟨c, t, hct, _⟩ := natRepr_head n
  rw [hct]
  show parseDigitsAux (c :: t) 0 = _
  rw [← hct]
  show parseDigitsAux (natDigitsRev n).reverse 0 = _
  rw [parseDigitsAux_reverse (natDigitsRev n) (natDigitsRev_isDigit n) 0,
    digitsValRev_natDigitsRev]
  simp

/-- The accumulator form of the previous roundtrip. -/
theorem parseDigitsAux_natRepr (m : Nat) : parseDigitsAux (natRepr m).data 0 = Option.some m := by
  have h := parseDigits_natRepr m
  obtain ⟨c, t, hct, _⟩ := natRepr_head m
  rw [hct] at h ⊢
  exact h

/-- Leading zeros do not change the parsed value. -/
theorem parseDigitsAux_zeros (k : Nat) (l : List Char) :
    parseDigitsAux (List.replicate k '0' ++ l) 0 = parseDigitsAux l 0 := by
  induction k with
  | zero => rfl
  | succ j ih =>
    show parseDigitsAux ('0' :: (List.replicate j '0' ++ l)) 0 = _
    simp only [parseDigitsAux, show ('0' : Char).isDigit = true from rfl, if_true]
    have h0 : 0 * 10 + digitVal '0' = 0 := by decide
    rw [h0, ih]

/-- Parsing a zero-padded rendered number recovers it. -/
theorem parseDigits_zeroPad (w m : Nat) :
    parseDigits (zeroPad w (natRepr m)).data = Option.some m := by
  have hdata : (zeroPad w (natRepr m)).data =
      List.replicate (w - (natRepr m).data.length) '0' ++ (natRepr m).data := by
    unfold zeroPad
    rw [String.data_append]
  obtain ⟨c, t, hct, _⟩ := natRepr_head m
  have hne : (zeroPad w (natRepr m)).data ≠ [] := by
    rw [hdata, hct]
    intro hcon
    have := List.append_eq_nil.mp hcon
    exact absurd this.2 (by simp)
  obtain ⟨c0, t0, h0⟩ := List.exists_cons_of_ne_nil hne
  rw [h0]
  show parseDigitsAux (c0 :: t0) 0 = _
  rw [← h0, hdata, parseDigitsAux_zeros]
  exact parseDigitsAux_natRepr m

/-- The fractional body of a positive-precision rendering parses to the
scaled fraction. -/
theorem parseDecimalCore_fixed (d a : Nat) (hd : d ≠ 0) :
    parseDecimalCore ((natRepr (a / 10 ^ d) ++ "." ++ zeroPad d (natRepr (a % 10 ^ d))).data) =
      Option.some (((a : Nat) : ℚ) / ((10 ^ d : Nat) : ℚ)) := by
  have hdata : (natRepr (a / 10 ^ d) ++ "." ++ zeroPad d (natRepr (a % 10 ^ d))).data =
      (natRepr (a / 10 ^ d)).data ++ '.' :: (zeroPad d (natRepr (a % 10 ^ d))).data := by
    rw [String.data_append, String.data_append, List.append_assoc]
    rfl
  have hnodot : '.' ∉ (natRepr (a / 10 ^ d)).data := natRepr_not_mem _ '.' (by decide)
  have hsplit : splitAllC '.' ((natRepr (a / 10 ^ d)).data ++
      '.' :: (zeroPad d (natRepr (a % 10 ^ d))).data) =
      (natRepr (a / 10 ^ d)).data :: splitAllC '.' (zeroPad d (natRepr (a % 10 ^ d))).data := by
    exact splitAllC_append_sep '.' _ _ hnodot
  have hnodot2 : '.' ∉ (zeroPad d (natRepr (a % 10 ^ d))).data := by
    unfold zeroPad
    rw [String.data_append]
    intro hmem
    rcases List.mem_append.mp hmem with h1 | h1
    · have h2 : ('.' : Char) ∈ List.replicate (d - (natRepr (a % 10 ^ d)).data.length) '0' := h1
      exact absurd (List.eq_of_mem_replicate h2) (by decide)
    · exact natRepr_not_mem _ '.' (by decide) h1
  have hlen : (zeroPad d (natRepr (a % 10 ^ d))).data.length = d := by
    apply zeroPad_data_length
    rw [natRepr_data_length]
    obtain ⟨e, he⟩ : ∃ e, d = e + 1 := ⟨d - 1, by omega⟩
    rw [he]
    apply natDigitsRev_length_le
    exact Nat.mod_lt _ (Nat.pos_pow_of_pos _ (by omega))
  have hstep : parseDecimalCore ((natRepr (a / 10 ^ d)).data ++
      '.' :: (zeroPad d (natRepr (a % 10 ^ d))).data) =
      (match parseDigits (natRepr (a / 10 ^ d)).data,
          parseDigits (zeroPad d (natRepr (a % 10 ^ d))).data with
        | Option.some x, Option.some y =>
          Option.some ((x : ℚ) + (y : ℚ) /
            ((10 ^ (zeroPad d (natRepr (a % 10 ^ d))).data.length : Nat) : ℚ))
        | _, _ => Option.none) := by
    unfold parseDecimalCore
    rw [hsplit, splitAllC_no_sep '.' _ hnodot2]
  rw [hdata, hstep, parseDigits_natRepr, parseDigits_zeroPad, hlen]
  show Option.some _ = Option.some _
  congr 1
  have hne : ((10 ^ d : Nat) : ℚ) ≠ 0 := by positivity
  have hmod := Nat.div_add_mod a (10 ^ d)
  field_simp
  have hcast : ((10 : ℚ) ^ d) * ((a / 10 ^ d : Nat) : ℚ) + ((a % 10 ^ d : Nat) : ℚ) =
      ((a : Nat) : ℚ) := by
    exact_mod_cast congrArg (fun x : Nat => ((x : Nat) : ℚ)) hmod
  push_cast at hcast
  linarith

/-- Parsing dispatches on the head character. -/
theorem parseDecimal_data (s : String) (c : Char) (rest : List Char) (h : s.data = c :: rest) :
    parseDecimal s =
      (if c = '-' then (parseDecimalCore rest).map (fun q => -q)
       else parseDecimalCore (c :: rest)) := by
  unfold parseDecimal
  rw [h]

/-- Parsing a rendered natural number yields its value. -/
theorem parseDecimal_natRepr (n : Nat) : parseDecimal (natRepr n) = Option.some ((n : Nat) : ℚ) := by
  obtain ⟨c, t, hct, hdig⟩ := natRepr_head n
  have hcm : ¬(c = '-') := by
    intro hcon
    subst hcon
    rw [show ('-' : Char).isDigit = false from rfl] at hdig
    exact absurd hdig (by decide)
  rw [parseDecimal_data (natRepr n) c t hct, if_neg hcm, ← hct]
  have hnodot : '.' ∉ (natRepr n).data := natRepr_not_mem n '.' (by decide)
  have hstep : parseDecimalCore (natRepr n).data =
      (match parseDigits (natRepr n).data with
        | Option.some m => Option.some ((m : Nat) : ℚ)
        | Option.none => Option.none) := by
    unfold parseDecimalCore
    rw [splitAllC_no_sep '.' _ hnodot]
  rw [hstep, parseDigits_natRepr]

/-- Parsing a six-decimal (or any fixed-precision) rendering recovers the
rounded value. -/
theorem parseDecimal_fixedFormat (d : Nat) (q : ℚ) (hd : d ≠ 0) :
    parseDecimal (fixedFormat d q) =
      Option.some (((roundHalfEven (q * ((10 ^ d : Nat) : ℚ)) : Int) : ℚ) /
        ((10 ^ d : Nat) : ℚ)) := by
  rw [fixedFormat_body, if_neg hd]
  by_cases hs : roundHalfEven (q * ((10 ^ d : Nat) : ℚ)) < 0
  · rw [if_pos hs]
    have hdata : (("-" : String) ++
        (natRepr ((roundHalfEven (q * ((10 ^ d : Nat) : ℚ))).natAbs / 10 ^ d) ++ "." ++
          zeroPad d (natRepr ((roundHalfEven (q * ((10 ^ d : Nat) : ℚ))).natAbs % 10 ^ d)))).data =
        '-' :: (natRepr ((roundHalfEven (q * ((10 ^ d : Nat) : ℚ))).natAbs / 10 ^ d) ++ "." ++
          zeroPad d (natRepr ((roundHalfEven (q * ((10 ^ d : Nat) : ℚ))).natAbs % 10 ^ d))).data := by
      rw [String.data_append]
      rfl
    rw [parseDecimal_data _ '-' _ hdata, if_pos rfl, parseDecimalCore_fixed d _ hd]
    show Option.some _ = Option.some _
    congr 1
    have habs : (((roundHalfEven (q * ((10 ^ d : Nat) : ℚ))).natAbs : Nat) : ℚ) =
        -((roundHalfEven (q * ((10 ^ d : Nat) : ℚ)) : Int) : ℚ) := by
      have h1 : ((roundHalfEven (q * ((10 ^ d : Nat) : ℚ))).natAbs : Int) =
          -(roundHalfEven (q * ((10 ^ d : Nat) : ℚ))) := by omega
      have h2 : (((roundHalfEven (q * ((10 ^ d : Nat) : ℚ))).natAbs : Nat) : ℚ) =
          (((roundHalfEven (q * ((10 ^ d : Nat) : ℚ))).natAbs : Int) : ℚ) :=
        (Int.cast_natCast _).symm
      rw [h2, h1, Int.cast_neg]
    rw [habs]
    ring
  · rw [if_neg hs, String.empty_append]
    obtain ⟨c, t, hct, hdig⟩ := natRepr_head
      ((roundHalfEven (q * ((10 ^ d : Nat) : ℚ))).natAbs / 10 ^ d)
    have hdata := append_head _ ("." ++
        zeroPad d (natRepr ((roundHalfEven (q * ((10 ^ d : Nat) : ℚ))).natAbs % 10 ^ d))) c t hct
    have hcm : ¬(c = '-') := by
      intro hcon
      subst hcon
      rw [show ('-' : Char).isDigit = false from rfl] at hdig
      exact absurd hdig (by decide)
    have hdata2 : (natRepr ((roundHalfEven (q * ((10 ^ d : Nat) : ℚ))).natAbs / 10 ^ d) ++ "." ++
        zeroPad d (natRepr ((roundHalfEven (q * ((10 ^ d : Nat) : ℚ))).natAbs % 10 ^ d))).data =
        c :: (t ++ ("." ++
          zeroPad d (natRepr ((roundHalfEven (q * ((10 ^ d : Nat) : ℚ))).natAbs % 10 ^ d))).data) := by
      rw [String.append_assoc]
      exact hdata
    have hback : c :: (t ++ ("." ++
        zeroPad d (natRepr ((roundHalfEven (q * ((10 ^ d : Nat) : ℚ))).natAbs % 10 ^ d))).data) =
        (natRepr ((roundHalfEven (q * ((10 ^ d : Nat) : ℚ))).natAbs / 10 ^ d) ++ "." ++
          zeroPad d (natRepr ((roundHalfEven (q * ((10 ^ d : Nat) : ℚ))).natAbs % 10 ^ d))).data :=
      hdata2.symm
    rw [parseDecimal_data _ c _ hdata2, if_neg hcm, hback, parseDecimalCore_fixed d _ hd]
    show Option.some _ = Option.some _
    congr 1
    have habs : (((roundHalfEven (q * ((10 ^ d : Nat) : ℚ))).natAbs : Nat) : ℚ) =
        ((roundHalfEven (q * ((10 ^ d : Nat) : ℚ)) : Int) : ℚ) := by
      have h1 : ((roundHalfEven (q * ((10 ^ d : Nat) : ℚ))).natAbs : Int) =
          roundHalfEven (q * ((10 ^ d : Nat) : ℚ)) := by omega
      have h2 : (((roundHalfEven (q * ((10 ^ d : Nat) : ℚ))).natAbs : Nat) : ℚ) =
          (((roundHalfEven (q * ((10 ^ d : Nat) : ℚ))).natAbs : Int) : ℚ) :=
        (Int.cast_natCast _).symm
      rw [h2, h1]
    rw [habs]

/-- One RPN step: pushing the value of a defined series. -/
theorem rpnEvalTok_push (env : List (String × ℚ)) (tok : String) (rest : List String)
    (st : List ℚ) (v : ℚ) (h1 : tok ≠ "+") (h2 : tok ≠ "*") (h3 : tok ≠ "/")
    (hl : alookup env tok = Option.some v) :
    Connector.rpnEvalTok env (tok :: rest) st = Connector.rpnEvalTok env rest (v :: st) := by
  rw [Connector.rpnEvalTok]
  rw [if_neg h1, if_neg h2, if_neg h3, hl]

/-- One RPN step: pushing a numeric literal. -/
theorem rpnEvalTok_pushNum (env : List (String × ℚ)) (tok : String) (rest : List String)
    (st : List ℚ) (c : ℚ) (h1 : tok ≠ "+") (h2 : tok ≠ "*") (h3 : tok ≠ "/")
    (hl : alookup env tok = Option.none) (hp : parseDecimal tok = Option.some c) :
    Connector.rpnEvalTok env (tok :: rest) st = Connector.rpnEvalTok env rest (c :: st) := by
  rw [Connector.rpnEvalTok]
  rw [if_neg h1, if_neg h2, if_neg h3, hl, hp]

/-- One RPN step: addition. -/
theorem rpnEvalTok_plus (env : List (String × ℚ)) (rest : List String) (a b : ℚ)
    (st : List ℚ) :
    Connector.rpnEvalTok env ("+" :: rest) (a :: b :: st) =
      Connector.rpnEvalTok env rest ((b + a) :: st) := by
  rw [Connector.rpnEvalTok, if_pos rfl]
  rfl

/-- One RPN step: multiplication. -/
theorem rpnEvalTok_mul (env : List (String × ℚ)) (rest : List String) (a b : ℚ)
    (st : List ℚ) :
    Connector.rpnEvalTok env ("*" :: rest) (a :: b :: st) =
      Connector.rpnEvalTok env rest ((b * a) :: st) := by
  rw [Connector.rpnEvalTok]
  rw [if_neg (by decide), if_pos rfl]
  rfl

/-- One RPN step: division. -/
theorem rpnEvalTok_div (env : List (String × ℚ)) (rest : List String) (a b : ℚ)
    (st : List ℚ) :
    Connector.rpnEvalTok env ("/" :: rest) (a :: b :: st) =
      Connector.rpnEvalTok env rest ((b / a) :: st) := by
  rw [Connector.rpnEvalTok]
  rw [if_neg (by decide), if_neg (by decide), if_pos rfl]
  rfl

/-- Folding the stack tokens adds every bound value. -/
theorem rpnEval_fold (env : List (String × ℚ)) (pairs : List (String × ℚ)) :
    ∀ (tail : List String) (acc : ℚ) (st : List ℚ),
      (∀ p ∈ pairs, alookup env p.1 = Option.some p.2 ∧
        p.1 ≠ "+" ∧ p.1 ≠ "*" ∧ p.1 ≠ "/") →
      Connector.rpnEvalTok env (withPlus (pairs.map Prod.fst) ++ tail) (acc :: st) =
        Connector.rpnEvalTok env tail ((acc + (pairs.map Prod.snd).sum) :: st) := by
  induction pairs with
  | nil =>
    intro tail acc st hp
    simp [withPlus]
  | cons p rest ih =>
    intro tail acc st hp
    obtain ⟨hlook, hne1, hne2, hne3⟩ := hp p (List.mem_cons_self _ _)
    show Connector.rpnEvalTok env
        (p.1 :: "+" :: (withPlus (rest.map Prod.fst) ++ tail)) (acc :: st) = _
    rw [rpnEvalTok_push env p.1 _ _ p.2 hne1 hne2 hne3 hlook,
      rpnEvalTok_plus env _ p.2 acc st,
      ih tail (acc + p.2) st (fun q hq => hp q (List.mem_cons_of_mem p hq)),
      List.map_cons, List.sum_cons, add_assoc]

/-- Rebuilding a string from its characters is the identity. -/
theorem string_mk_data (s : String) : String.mk s.data = s := by
  cases s
  rfl

/-- A character that is neither a minus sign nor a digit differs from any
sign-or-digit character. -/
theorem sign_digit_ne (c : Char) (hc : c = '-' ∨ c.isDigit = true) (b : Char)
    (hb : b.isDigit = false) (hbm : ¬(b = '-')) : ¬(b = c) := by
  intro hcon
  subst hcon
  rcases hc with h | h
  · exact hbm h
  · rw [h] at hb
    exact absurd hb (by decide)

/-- The character decomposition of a generated temp name. -/
theorem serie0_temp_data (j : Nat) :
    (("serie0" : String) ++ "-tmp" ++ natRepr j).data =
      's' :: (("erie0-tmp" : String).data ++ (natRepr j).data) := by
  rw [String.data_append, String.data_append]
  rfl

/-- No comma occurs in a generated temp name. -/
theorem serie0_temp_no_comma (j : Nat) :
    ',' ∉ (("serie0" : String) ++ "-tmp" ++ natRepr j).data := by
  rw [serie0_temp_data]
  intro h
  rcases List.mem_cons.mp h with h1 | h1
  · exact absurd h1 (by decide)
  · rcases List.mem_append.mp h1 with h2 | h2
    · exact absurd h2 (by decide)
    · exact natRepr_no_comma j h2

/-- One temp name is produced per contributing serie. -/
theorem contribTemps_length (sn : String) :
    ∀ (series : List Connector.Serie) (index : Nat),
      (contribTemps sn series index).length =
        (series.filter fun s => s.metric.isSome).length := by
  intro series
  induction series with
  | nil =>
    intro index
    rfl
  | cons s rest ih =>
    intro index
    cases hm : s.metric with
    | none =>
      rw [contribTemps, hm]
      have hf : (s.metric).isSome = false := by rw [hm]; rfl
      simp only [List.filter_cons, hf, Bool.false_eq_true, if_false]
      exact ih (index + 1)
    | some m =>
      rw [contribTemps, hm]
      have hf : (s.metric).isSome = true := by rw [hm]; rfl
      simp only [List.filter_cons, hf, if_true, List.length_cons]
      rw [ih (index + 1)]

/-- Every interleaved token is a listed name or the addition operator. -/
theorem withPlus_mem (l : List String) (t : String) (h : t ∈ withPlus l) :
    t ∈ l ∨ t = "+" := by
  induction l with
  | nil => simp [withPlus] at h
  | cons a rest ih =>
    rw [withPlus] at h
    rcases List.mem_cons.mp h with h1 | h1
    · exact Or.inl (by simp [h1])
    · rcases List.mem_cons.mp h1 with h2 | h2
      · exact Or.inr h2
      · rcases ih h2 with h3 | h3
        · exact Or.inl (List.mem_cons_of_mem a h3)
        · exact Or.inr h3

/-- Every stack token is a listed name or the addition operator. -/
theorem stackOf_mem (l : List String) (t : String) (h : t ∈ stackOf l) :
    t ∈ l ∨ t = "+" := by
  cases l with
  | nil => simp [stackOf] at h
  | cons a rest =>
    rw [stackOf] at h
    rcases List.mem_cons.mp h with h1 | h1
    · exact Or.inl (by simp [h1])
    · rcases withPlus_mem rest t h1 with h2 | h2
      · exact Or.inl (List.mem_cons_of_mem a h2)
      · exact Or.inr h2

/-- The definition/stack loop in closed form: it appends the contributing
definitions to the grapher list, to the exporter list unless info-only, and
the interleaved temp names to the stack. -/
theorem sumLoop_spec (handler : Connector.RRDConnectorHandler) (sn : String) (io : Bool) :
    ∀ (series : List Connector.Serie) (index : Nat) (g x : List Connector.GraphCmd)
      (stack : List String),
      Connector.sumLoop handler sn io series index g x stack =
        (g ++ sumDefs handler sn series index,
          (if io then x else x ++ sumDefs handler sn series index),
          (if stack = [] then stackOf (contribTemps sn series index)
           else stack ++ withPlus (contribTemps sn series index))) := by
  intro series
  induction series with
  | nil =>
    intro index g x stack
    rw [Connector.sumLoop, sumDefs, contribTemps]
    cases io <;> by_cases hst : stack = [] <;> simp [hst, stackOf, withPlus]
  | cons s rest ih =>
    intro index g x stack
    cases hm : s.metric with
    | none =>
      rw [Connector.sumLoop, sumDefs, contribTemps, hm]
      exact ih (index + 1) g x stack
    | some m =>
      rw [Connector.sumLoop, sumDefs, contribTemps, hm]
      show Connector.sumLoop handler sn io rest (index + 1)
          (g ++ [Connector.GraphCmd.defSeries (sn ++ "-tmp" ++ natRepr index)
            (Connector.resolveMetric handler m).filePath
            (Connector.resolveMetric handler m).dataset "AVERAGE"])
          (if io then x
           else x ++ [Connector.GraphCmd.defSeries (sn ++ "-tmp" ++ natRepr index)
            (Connector.resolveMetric handler m).filePath
            (Connector.resolveMetric handler m).dataset "AVERAGE"])
          (if stack.length = 0 then stack ++ [sn ++ "-tmp" ++ natRepr index]
           else stack ++ [sn ++ "-tmp" ++ natRepr index, "+"]) = _
      rw [ih (index + 1)]
      refine congrArg₂ Prod.mk ?_ (congrArg₂ Prod.mk ?_ ?_)
      · rw [List.append_assoc]
        rfl
      · cases io with
        | true => simp
        | false =>
          simp only [Bool.false_eq_true, if_false]
          rw [List.append_assoc]
          rfl
      · by_cases hst : stack = []
        · subst hst
          simp [withPlus, stackOf]
        · have hlen : ¬(stack.length = 0) := by
            intro hcon
            exact hst (List.length_eq_zero.mp hcon)
          rw [if_neg hlen, if_neg hst,
            if_neg (by simp : ¬(stack ++ [sn ++ "-tmp" ++ natRepr index, "+"] = [])),
            List.append_assoc, withPlus]
          rfl

/-- The exporter command list `GetPlots` hands the storage engine for an
Avg query of at least two series: the contributing definitions, the RPN
fold with the division by the total serie count, the scale chain and the
export request. -/
theorem avg_xport_cmds (handler : Connector.RRDConnectorHandler) (query : Connector.GroupQuery)
    (percentiles : List ℚ)
    (htype : query.type = Connector.OperGroupType.avg) (hlen : 2 ≤ query.series.length) :
    xportOf (handler.GetPlots query percentiles) =
      sumDefs handler "serie0" query.series 0 ++
        [ Connector.GraphCmd.cdef "serie0-orig"
            (joinComma (stackOf (contribTemps "serie0" query.series 0) ++
              [natRepr query.series.length, "/"])),
         (if query.scale ≠ 0 then
            Connector.GraphCmd.cdef "serie0"
              ("serie0" ++ "-orig," ++ fixedFormat 6 query.scale ++ ",*")
          else Connector.GraphCmd.cdef "serie0" "serie0-orig"),
         Connector.GraphCmd.xportDef "serie0" "serie0"] := by
  have hnz : ¬(query.series.length = 0) := by omega
  have hno1 : ¬(query.type ≠ Connector.OperGroupType.none ∧ query.series.length = 1) := by
    intro h
    exact absurd h.2 (by omega)
  unfold Connector.RRDConnectorHandler.GetPlots
  rw [rrdGetData_normalize handler query percentiles false hnz, if_neg hno1]
  obtain ⟨qn, qs, qt, qsc⟩ := query
  have ht2 : qt = Connector.OperGroupType.avg := htype
  subst ht2
  simp only [Connector.rrdGetDataCore]
  rw [sumLoop_spec handler ("serie" ++ natRepr 0) false qs 0 [] [] []]
  simp only [xportOf]
  rw [show ("serie" ++ natRepr 0 : String) = "serie0" from rfl,
    show ("serie0" ++ "-orig" : String) = "serie0-orig" from rfl]
  simp

/-- Running a CDef binds the value of its RPN expression. -/
theorem evalCmds_cdef (f : String → String → ℚ) (vn expr : String)
    (rest : List Connector.GraphCmd) (env : List (String × ℚ)) (tokens : List String) (v : ℚ)
    (htok : (splitAllC ',' expr.data).map String.mk = tokens)
    (hrpn : Connector.rpnEvalTok env tokens [] = Option.some v) :
    Connector.evalCmds f ( Connector.GraphCmd.cdef vn expr :: rest) env =
      Connector.evalCmds f rest ((vn, v) :: env) := by
  simp only [Connector.evalCmds]
  rw [htok, hrpn]

/-- Running an export request binds nothing. -/
theorem evalCmds_xportStep (f : String → String → ℚ) (vn legend : String)
    (rest : List Connector.GraphCmd) (env : List (String × ℚ)) :
    Connector.evalCmds f (Connector.GraphCmd.xportDef vn legend :: rest) env =
      Connector.evalCmds f rest env := rfl

/-- Running no commands leaves the environment unchanged. -/
theorem evalCmds_nil (f : String → String → ℚ) (env : List (String × ℚ)) :
    Connector.evalCmds f [] env = Option.some env := rfl

/-- The full Avg pipeline in closed form: the exported output serie value
is the sum of the contributing samples divided by the total number of
series of the query - contributing or not - with a non-zero group scale
applied afterwards as its six-decimal rendering. -/
theorem avgPlanEval (handler : Connector.RRDConnectorHandler) (query : Connector.GroupQuery)
    (percentiles : List ℚ) (f : String → String → ℚ)
    (htype : query.type = Connector.OperGroupType.avg)
    (hlen : 2 ≤ query.series.length)
    (hcontrib : (query.series.filter fun s => s.metric.isSome) ≠ []) :
    (Connector.evalCmds f (xportOf (handler.GetPlots query percentiles)) []).bind
        (fun env => alookup env "serie0") =
      Option.some (Connector.groupScaleApply query.scale
        (Connector.contribSum handler f query.series /
          ((query.series.length : Nat) : ℚ))) := by
  rw [avg_xport_cmds handler query percentiles htype hlen]
  have hbind : ∀ {β : Type} (a : List (String × ℚ)) (g : List (String × ℚ) → Option β),
      (Option.some a).bind g = g a := fun a g => rfl
  have hkeys : (defsEnv handler f "serie0" query.series 0).map Prod.fst =
      contribTemps "serie0" query.series 0 := defsEnv_keys handler f "serie0" query.series 0
  have hvals : (defsEnv handler f "serie0" query.series 0).map Prod.snd =
      ((query.series.filter fun s => s.metric.isSome).map (Connector.serieVal handler f)) :=
    defsEnv_values handler f "serie0" query.series 0
  have hnodup : ((defsEnv handler f "serie0" query.series 0).map Prod.fst).Nodup := by
    rw [hkeys]
    exact contribTemps_nodup "serie0" query.series 0
  have hpairsne : defsEnv handler f "serie0" query.series 0 ≠ [] := by
    intro hcon
    apply hcontrib
    apply List.eq_nil_of_length_eq_zero
    have hl := contribTemps_length "serie0" query.series 0
    rw [← hkeys, hcon] at hl
    exact hl.symm
  obtain ⟨p0, prest, hp0⟩ := List.exists_cons_of_ne_nil hpairsne
  have htemps : contribTemps "serie0" query.series 0 = p0.1 :: prest.map Prod.fst := by
    rw [← hkeys, hp0, List.map_cons]
  have hshape : ∀ p ∈ defsEnv handler f "serie0" query.series 0,
      ∃ j, p.1 = ("serie0" : String) ++ "-tmp" ++ natRepr j := by
    intro p hp
    have hmem : p.1 ∈ contribTemps "serie0" query.series 0 := by
      rw [← hkeys]
      exact List.mem_map_of_mem Prod.fst hp
    obtain ⟨j, _, hj⟩ := contribTemps_mem "serie0" query.series 0 p.1 hmem
    exact ⟨j, hj⟩
  have hlook : ∀ p ∈ defsEnv handler f "serie0" query.series 0,
      alookup (defsEnv handler f "serie0" query.series 0).reverse p.1 = Option.some p.2 ∧
        p.1 ≠ "+" ∧ p.1 ≠ "*" ∧ p.1 ≠ "/" := by
    intro p hp
    obtain ⟨j, hj⟩ := hshape p hp
    refine ⟨?_, ?_, ?_, ?_⟩
    · rw [alookup_reverse_nodup _ hnodup]
      exact alookup_self_of_nodup _ hnodup p hp
    · rw [hj]
      exact ne_of_head _ _ 's' '+' _ _ (serie0_temp_data j) rfl (by decide)
    · rw [hj]
      exact ne_of_head _ _ 's' '*' _ _ (serie0_temp_data j) rfl (by decide)
    · rw [hj]
      exact ne_of_head _ _ 's' '/' _ _ (serie0_temp_data j) rfl (by decide)
  have hfree : ∀ s ∈ stackOf (contribTemps "serie0" query.series 0) ++
      [natRepr query.series.length, "/"], ',' ∉ s.data := by
    intro s hs
    rcases List.mem_append.mp hs with h1 | h1
    · rcases stackOf_mem _ s h1 with h2 | h2
      · obtain ⟨j, _, hj⟩ := contribTemps_mem "serie0" query.series 0 s h2
        rw [hj]
        exact serie0_temp_no_comma j
      · rw [h2]
        decide
    · rcases List.mem_cons.mp h1 with h2 | h2
      · rw [h2]
        exact natRepr_no_comma _
      · rcases List.mem_cons.mp h2 with h3 | h3
        · rw [h3]
          decide
        · simp at h3
  have hne2 : stackOf (contribTemps "serie0" query.series 0) ++
      [natRepr query.series.length, "/"] ≠ [] := by
    rw [htemps, stackOf]
    simp
  have hS : p0.2 + (prest.map Prod.snd).sum = Connector.contribSum handler f query.series := by
    unfold Connector.contribSum
    rw [← hvals, hp0, List.map_cons, List.sum_cons]
  obtain ⟨cN, tN, hcN, hdigN⟩ := natRepr_head query.series.length
  have hNop : ∀ b : Char, b.isDigit = false → ¬(cN = b) := by
    intro b hb hcon
    rw [hcon] at hdigN
    rw [hdigN] at hb
    exact absurd hb (by decide)
  have hNmiss : alookup (defsEnv handler f "serie0" query.series 0).reverse
      (natRepr query.series.length) = Option.none := by
    apply alookup_none_of_forall
    intro p hp
    obtain ⟨j, hj⟩ := hshape p (List.mem_reverse.mp hp)
    rw [hj]
    exact ne_of_head _ _ 's' cN _ _ (serie0_temp_data j) hcN
      (fun hcon => by rw [← hcon] at hdigN; exact absurd hdigN (by decide))
  have hrpn : Connector.rpnEvalTok (defsEnv handler f "serie0" query.series 0).reverse
      (stackOf (contribTemps "serie0" query.series 0) ++
        [natRepr query.series.length, "/"]) [] =
      Option.some (Connector.contribSum handler f query.series /
        ((query.series.length : Nat) : ℚ)) := by
    rw [htemps, stackOf, List.cons_append]
    obtain ⟨hlk0, h0p, h0m, h0d⟩ := hlook p0 (by rw [hp0]; exact List.mem_cons_self _ _)
    rw [rpnEvalTok_push _ p0.1 _ [] p0.2 h0p h0m h0d hlk0]
    rw [rpnEval_fold _ prest [natRepr query.series.length, "/"] p0.2 []
      (fun q hq => hlook q (by rw [hp0]; exact List.mem_cons_of_mem p0 hq))]
    rw [rpnEvalTok_pushNum _ (natRepr query.series.length) ["/"] _
      ((query.series.length : Nat) : ℚ)
      (ne_of_head _ _ cN '+' _ _ hcN rfl (hNop '+' (by decide)))
      (ne_of_head _ _ cN '*' _ _ hcN rfl (hNop '*' (by decide)))
      (ne_of_head _ _ cN '/' _ _ hcN rfl (hNop '/' (by decide)))
      hNmiss (parseDecimal_natRepr query.series.length)]
    rw [rpnEvalTok_div]
    rw [hS]
    rfl
  rw [evalCmds_append, evalCmds_sumDefs handler f "serie0" query.series 0 [],
    List.append_nil, hbind]
  by_cases hsc : query.scale = 0
  · rw [if_neg (not_not_intro hsc)]
    rw [ evalCmds_cdef f "serie0-orig" _ _ _ _ _ (tokenize_joinComma _ hne2 hfree) hrpn]
    have htok2 : (splitAllC ',' ("serie0-orig" : String).data).map String.mk =
        ["serie0-orig"] := by
      rw [splitAllC_no_sep ',' _ (by decide)]
      rfl
    have hrpn2 : Connector.rpnEvalTok (("serie0-orig",
        Connector.contribSum handler f query.series /
          ((query.series.length : Nat) : ℚ)) ::
        (defsEnv handler f "serie0" query.series 0).reverse) ["serie0-orig"] [] =
        Option.some (Connector.contribSum handler f query.series /
          ((query.series.length : Nat) : ℚ)) := by
      rw [rpnEvalTok_push _ "serie0-orig" [] [] _ (by decide) (by decide) (by decide)
        (by rw [alookup, if_pos rfl])]
      rfl
    rw [ evalCmds_cdef f "serie0" _ _ _ _ _ htok2 hrpn2, evalCmds_xportStep, evalCmds_nil,
      hbind]
    rw [alookup, if_pos rfl]
    rw [Connector.groupScaleApply, if_neg (not_not_intro hsc)]
  · rw [if_pos hsc]
    rw [ evalCmds_cdef f "serie0-orig" _ _ _ _ _ (tokenize_joinComma _ hne2 hfree) hrpn]
    have hdata : ("serie0" ++ "-orig," ++ fixedFormat 6 query.scale ++ ",*" : String).data =
        ("serie0-orig" : String).data ++
          ',' :: ((fixedFormat 6 query.scale).data ++ ',' :: ['*']) := by
      rw [String.data_append, String.data_append, String.data_append]
      rw [show (("serie0" : String).data ++ ("-orig," : String).data) =
        ("serie0-orig" : String).data ++ [','] from rfl]
      rw [show ((",*" : String).data) = ',' :: ['*'] from rfl]
      simp [List.append_assoc]
    have htok2 : (splitAllC ','
        ("serie0" ++ "-orig," ++ fixedFormat 6 query.scale ++ ",*" : String).data).map
          String.mk = ["serie0-orig", fixedFormat 6 query.scale, "*"] := by
      rw [hdata, splitAllC_append_sep ',' _ _ (by decide),
        splitAllC_append_sep ',' _ _ (fixedFormat_no_comma 6 query.scale),
        splitAllC_no_sep ',' ['*'] (by decide)]
      rw [List.map_cons, List.map_cons, List.map_cons]
      rw [string_mk_data, string_mk_data]
      rfl
    obtain ⟨cF, tF, hcF, hdigF⟩ := fixedFormat_head 6 query.scale
    have hFmiss : alookup (("serie0-orig",
        Connector.contribSum handler f query.series /
          ((query.series.length : Nat) : ℚ)) ::
        (defsEnv handler f "serie0" query.series 0).reverse)
        (fixedFormat 6 query.scale) = Option.none := by
      have hhead : ¬(fixedFormat 6 query.scale = "serie0-orig") :=
        ne_of_head _ _ cF 's' _ _ hcF rfl
          (Ne.symm (sign_digit_ne cF hdigF 's' (by decide) (by decide)))
      rw [alookup, if_neg hhead]
      apply alookup_none_of_forall
      intro p hp
      obtain ⟨j, hj⟩ := hshape p (List.mem_reverse.mp hp)
      rw [hj]
      exact ne_of_head _ _ 's' cF _ _ (serie0_temp_data j) hcF
        (sign_digit_ne cF hdigF 's' (by decide) (by decide))
    have hrpn2 : Connector.rpnEvalTok (("serie0-orig",
        Connector.contribSum handler f query.series /
          ((query.series.length : Nat) : ℚ)) ::
        (defsEnv handler f "serie0" query.series 0).reverse)
        ["serie0-orig", fixedFormat 6 query.scale, "*"] [] =
        Option.some ((Connector.contribSum handler f query.series /
          ((query.series.length : Nat) : ℚ)) * Connector.sixDec query.scale) := by
      rw [rpnEvalTok_push _ "serie0-orig" _ [] _ (by decide) (by decide) (by decide)
        (by rw [alookup, if_pos rfl])]
      rw [rpnEvalTok_pushNum _ (fixedFormat 6 query.scale) ["*"] _ (Connector.sixDec query.scale)
        (ne_of_head _ _ cF '+' _ _ hcF rfl
          (Ne.symm (sign_digit_ne cF hdigF '+' (by decide) (by decide))))
        (ne_of_head _ _ cF '*' _ _ hcF rfl
          (Ne.symm (sign_digit_ne cF hdigF '*' (by decide) (by decide))))
        (ne_of_head _ _ cF '/' _ _ hcF rfl
          (Ne.symm (sign_digit_ne cF hdigF '/' (by decide) (by decide))))
        hFmiss (by rw [parseDecimal_fixedFormat 6 query.scale (by decide)]; rfl)]
      rw [rpnEvalTok_mul]
      rfl
    rw [ evalCmds_cdef f "serie0" _ _ _ _ _ htok2 hrpn2, evalCmds_xportStep, evalCmds_nil,
      hbind]
    rw [alookup, if_pos rfl]
    rw [Connector.groupScaleApply, if_pos hsc]

/-- C2: for an Avg query with at least two series and at least one
contributing serie, the engine folds the contributing series - those whose
metric reference is present, skipping the absent ones - with addition, but
divides the folded sum by the TOTAL number of series of the query,
absent-metric series included, not by the count of contributing series; a
non-zero group scale is then applied after the fold and division, as the
six-decimal rendering the `%f` verb prints for it. -/
theorem avg_divides_by_total_series_count (handler : Connector.RRDConnectorHandler)
    (query : Connector.GroupQuery) (percentiles : List ℚ) (f : String → String → ℚ)
    (htype : query.type = Connector.OperGroupType.avg)
    (hlen : 2 ≤ query.series.length)
    (hcontrib : (query.series.filter fun s => s.metric.isSome) ≠ []) :
    (Connector.evalCmds f (xportOf (handler.GetPlots query percentiles)) []).bind
        (fun env => alookup env "serie0") =
      Option.some (Connector.groupScaleApply query.scale
        (Connector.contribSum handler f query.series /
          ((query.series.length : Nat) : ℚ))) :=
  avgPlanEval handler query percentiles f htype hlen hcontrib

/-- C2 counterexample: an Avg query with one contributing serie of constant
value 6 and one absent-metric serie exports 6/2 = 3, not the 6/1 = 6 the
spec predicts when dividing by the count of contributing series. -/
theorem avg_contributing_count_counterexample :
    (Connector.evalCmds constSix (xportOf (avgHandler.GetPlots avgQueryCex [])) []).bind
        (fun env => alookup env "serie0") = Option.some 3 ∧
    Connector.contribSum avgHandler constSix avgQueryCex.series /
        (((avgQueryCex.series.filter fun s => s.metric.isSome).length : Nat) : ℚ) = 6 ∧
    (3 : ℚ) ≠ 6 := by
  have hfilter : (avgQueryCex.series.filter fun s => s.metric.isSome) = [serie1] := rfl
  have hsum : Connector.contribSum avgHandler constSix avgQueryCex.series = 6 := by
    show ((avgQueryCex.series.filter fun s => s.metric.isSome).map
      (Connector.serieVal avgHandler constSix)).sum = 6
    rw [hfilter, List.map_cons, List.map_nil, List.sum_cons, List.sum_nil]
    rw [show Connector.serieVal avgHandler constSix serie1 = 6 from rfl]
    norm_num
  refine ⟨?_, ?_, by norm_num⟩
  · rw [avgPlanEval avgHandler avgQueryCex [] constSix rfl (by decide)
      (by rw [hfilter]; simp)]
    have h1 : Connector.groupScaleApply avgQueryCex.scale
        (Connector.contribSum avgHandler constSix avgQueryCex.series /
          ((avgQueryCex.series.length : Nat) : ℚ)) = 3 := by
      rw [hsum, show ((avgQueryCex.series.length : Nat) : ℚ) = ((2 : Nat) : ℚ) from rfl]
      rw [Connector.groupScaleApply, if_neg (by show ¬((0 : ℚ) ≠ 0); norm_num)]
      norm_num
    rw [h1]
  · rw [hsum, show (((avgQueryCex.series.filter fun s => s.metric.isSome).length : Nat) : ℚ) =
      ((1 : Nat) : ℚ) from rfl]
    norm_num

/-- C2 witness: a two-contributing-serie Avg query with group scale 2 is
governed by the theorem, with its hypotheses holding concretely. -/
theorem avg_divides_by_total_series_count_witness :
    avgQueryWit.type = Connector.OperGroupType.avg ∧
    2 ≤ avgQueryWit.series.length ∧
    (avgQueryWit.series.filter fun s => s.metric.isSome) ≠ [] ∧
    (Connector.evalCmds wFileVal (xportOf (avgHandler.GetPlots avgQueryWit [])) []).bind
        (fun env => alookup env "serie0") =
      Option.some (Connector.groupScaleApply avgQueryWit.scale
        (Connector.contribSum avgHandler wFileVal avgQueryWit.series /
          ((avgQueryWit.series.length : Nat) : ℚ))) :=
  ⟨rfl, by decide,
    by rw [show (avgQueryWit.series.filter fun s => s.metric.isSome) =
        [serie1, serie2] from rfl]; simp,
    avg_divides_by_total_series_count avgHandler avgQueryWit [] wFileVal rfl (by decide)
      (by rw [show (avgQueryWit.series.filter fun s => s.metric.isSome) =
          [serie1, serie2] from rfl]; simp)⟩

end Facette
